import Mathlib

/-!
Verification of the TILER area-reservation core (`tiler-reserve.c`).

This file shallowly embeds the packing and reservation algorithms of the
driver: the stride-matching scan `tiler_best2pack`, the NV12 pattern
generators `nv12_A`, `nv12_revA`, `nv12_B`, `nv12_C`, `nv12_D`, the
co-pack selector `nv12_together`, the separate-area planner
`nv12_separate`, the efficiency metric `nv12_eff`, and the orchestration
loops of `reserve_nv12` and `reserve_blocks`.

Machine integers are modelled as `Nat` (values in the C code stay far
below the `u16`/`int` ranges on the paths analysed); where the C code
truncates (stores through `u8 *`, computes a `u16` difference that can
wrap, or divides/shifts a possibly-negative `int`) the embedding is
explicit: `% 256` or `% 65536` for stores, `Int.tdiv` for C's
truncating signed division, and `Int.fdiv x 2` for an arithmetic right
shift by one.  C loops are embedded as structurally recursive functions
over an explicit fuel argument; every top-level entry point passes a
fuel that dominates the exact iteration count of the corresponding C
loop, and the safety lemmas below hold for every fuel.

The external allocator (`lay_2d`, `lay_nv12`, `release`,
`add_reserved`) is a parameter: an `AllocOps` record of state-passing
functions, universally quantified in the theorems about the
orchestration loops.
-/

/-- `ALIGN(x, b)` of the kernel: round `x` up to a multiple of `b`
(the kernel macro masks with `~(b-1)` and is used with power-of-two `b`,
where masking coincides with rounding up to a multiple).  For `b = 0`
the result is `0`, a case no analysed path reaches. -/
def ALIGN (x b : Nat) : Nat :=
  (x + b - 1) - (x + b - 1) % b

/-- Round `x` down to a multiple of `b` (the `trim` of the comment in
`tiler_best2pack`). -/
def TRIM (x b : Nat) : Nat :=
  x - x % b

/-- `ALIGN` on `Int`, for the one place (`nv12_together`'s table check)
where the C macro is applied to a possibly-negative `int` difference;
masking on two's complement equals rounding up to a multiple. -/
def alignInt (x : Int) (b : Nat) : Int :=
  ((x + b - 1).fdiv b) * b

/-- Conversion to `u8` (store through a `u8 *` packing pointer). -/
def u8 (x : Int) : Nat :=
  (x.emod 256).toNat

/-- Conversion to `u16`. -/
def u16 (x : Int) : Nat :=
  (x.emod 65536).toNat

/-- `DIV_ROUND_UP(a, b)` of the kernel.  In Lean `Nat` division by zero
yields `0`; in C a zero divisor is undefined behavior — the distinction
matters for claim C10 and is discussed there. -/
def DIV_ROUND_UP (a b : Nat) : Nat :=
  (a + b - 1) / b

/-- Container/band configuration read by the core from `ops` and the
module-level `band_8`/`band_16` globals: container width in slots, and
the 8-bit and 16-bit bands in slots. -/
structure Cfg where
  width : Nat
  height : Nat
  band_8 : Nat
  band_16 : Nat
deriving DecidableEq, Repr

/-- The concrete configuration of the driver on OMAP (PAGE_SIZE 4096,
8-bit slot width 64, 16-bit slot width 32 at 2 bytes per pixel,
container 256 x 128 slots). -/
def cfgOmap : Cfg := ⟨256, 128, 64, 64⟩

def PAGE_SIZE : Nat := 4096

/-- Result of `tiler_best2pack`: the returned `best_eff` and the final
values of the in/out parameters `*n` and `*area`. -/
structure B2P where
  eff : Nat
  n : Nat
  area : Nat
deriving DecidableEq, Repr

/-- The loop of `tiler_best2pack`.  State: `m` (blocks committed so
far), `ar` (current area `ALIGN(o + m*e + w, b)`), and the accumulators
`best`, `n`, `area`.  `fuel` dominates the remaining iteration count:
the C loop runs at most `max_n` times since `m` increments every
iteration under the guard `m < max_n`, so fuel `max_n` at `m = 0` is
exact. -/
def b2pGo (width o w e b max_n : Nat) :
    Nat → Nat → Nat → Nat → Nat → Nat → B2P
  | 0, _, _, best, n, area => ⟨best, n, area⟩
  | fuel + 1, m, ar, best, n, area =>
    if m < max_n ∧ o + m * e + w ≤ width ∧
        ALIGN (o + w) b = ALIGN (ar - (o + m * e)) b then
      let m' := m + 1
      let eff := m' * w * 1024 / ar
      if eff > best then
        b2pGo width o w e b max_n fuel m' (ALIGN (o + m' * e + w) b) eff m' ar
      else
        b2pGo width o w e b max_n fuel m' (ALIGN (o + m' * e + w) b) best n area
    else ⟨best, n, area⟩

/-- `tiler_best2pack(o, w, e, b, &n, &area)` against a container of
width `width`.  `n` and `area` are the values behind the in/out
pointers on entry (`reserve_blocks` passes a null `area`; the returned
`area` is simply unused there). -/
def tiler_best2pack (width o w e b n area : Nat) : B2P :=
  b2pGo width o w e b n n 0 (ALIGN (o + w) b) 0 n area

/-- Validity of block `k` in a run at offset `o`, pitch `e`, width `w`,
band `b`: the block fits in the container and its row stride —
`align(o + k*e + w, b) - trim(o + k*e, b)`, as defined in the source
comment — equals the stride `align(o + w, b)` of a single block. -/
def b2pCond (width o w e b k : Nat) : Prop :=
  o + k * e + w ≤ width ∧
    ALIGN (o + k * e + w) b - TRIM (o + k * e) b = ALIGN (o + w) b

instance (width o w e b k : Nat) : Decidable (b2pCond width o w e b k) := by
  unfold b2pCond; infer_instance

/-- Conversion to `u32` (the return type of `nv12_eff`). -/
def u32 (x : Int) : Nat :=
  (x.emod 4294967296).toNat

/-- `nv12_eff(n, w, area, n_need)`: rank a candidate primarily by the
number of areas needed to reach `n_need` (fewer is better), then by
pixel density.  The arithmetic is C `int` arithmetic folded into a
`u32` result.  NOTE: for `n = 0` the C macro `DIV_ROUND_UP(n_need, n)`
divides by zero (undefined behavior); Lean's total `Nat` division
yields `0` there — see claim C10. -/
def nv12_eff (n w area n_need : Nat) : Nat :=
  u32 ((268435456 : Int) - (DIV_ROUND_UP n_need n * area * 32 : Nat) +
    (1024 * n * ((w * 3 + 1) / 2) / area : Nat))

/-- `nv12_separate(o, w, a, n, &area)`: plan the 8-bit plane, then the
16-bit plane bounded by the 8-bit count; `area` is the value behind the
in/out pointer on entry. -/
def nv12_separate (cfg : Cfg) (o w a n area : Nat) : Nat × Nat :=
  let r1 := tiler_best2pack cfg.width o w (ALIGN w a) cfg.band_8 n area
  let r2 := tiler_best2pack cfg.width (o / 2) ((w + 1) / 2) (ALIGN w a / 2)
      cfg.band_16 r1.n r1.area
  (r2.n, r2.area * 3)

/-- Result of an NV12 pattern generator: the returned count, the final
value of `*area`, and the `(offset8, offset16)` pairs written through
the `u8 *` packing pointer, in order. -/
structure GenRes where
  n : Nat
  area : Nat
  pairs : List (Nat × Nat)
deriving DecidableEq

/-- Inner loop of `nv12_A`: pack 8-bit blocks up to the upper bound `u`
of the current band, placing each paired 16-bit block at the running
lower bound `l`.  State: `x`, `l`, `m`, and the pairs written so far.
`m` increments every iteration under the guard `m < n`, so fuel `n`
dominates the iteration count. -/
def nv12A_inner (o w a area u n : Nat) :
    Nat → Nat → Nat → Nat → List (Nat × Nat) → Nat × Nat × Nat × List (Nat × Nat)
  | 0, x, l, m, acc => (x, l, m, acc)
  | fuel + 1, x, l, m, acc =>
    if x + w ≤ u ∧ m < n then
      nv12A_inner o w a area u n fuel (ALIGN (x + w - o) a + o)
        ((area + x + w + 1) / 2) (m + 1) (acc ++ [(x % 256, l % 256)])
    else (x, l, m, acc)

/-- Outer loop of `nv12_A`: open a new band at the current `x`, run the
inner loop, then restart past the consumed lower bound.  Each outer
iteration strictly increases `x` (bounded by `area`) or increases `m`
(bounded by `n`), so fuel `area + n + 2` dominates the iteration
count. -/
def nv12A_outer (o w a area n : Nat) :
    Nat → Nat → Nat → List (Nat × Nat) → Nat × List (Nat × Nat)
  | 0, _, m, acc => (m, acc)
  | fuel + 1, x, m, acc =>
    if x + w < area ∧ m < n then
      let u := (area + x) / 2
      let r := nv12A_inner o w a area u n n x u m acc
      nv12A_outer o w a area n fuel (ALIGN (r.2.1 - o) a + o) r.2.2.1 r.2.2.2
    else (m, acc)

/-- Progressive packing `nv12_A`: AAAAaaaaBBbbCc into a `band_8`-slot
area. -/
def nv12_A (cfg : Cfg) (o w a n : Nat) : GenRes :=
  let area := cfg.band_8
  let r := nv12A_outer o w a area n (area + n + 2) o 0 []
  ⟨r.1, area, r.2⟩

/-- Regressive packing `nv12_revA`: run `nv12_A` from the mirrored
offset, then reflect every stored offset through the area
(`*p = *area - *p - width`, stored back through a `u8 *`). -/
def nv12_revA (cfg : Cfg) (o w a n : Nat) : GenRes :=
  let r := nv12_A cfg ((a - (o + w) % a) % a) w a n
  ⟨r.n, r.area, r.pairs.map fun p =>
    (u8 ((r.area : Int) - p.1 - w), u8 ((r.area : Int) - p.2 - ((w + 1) / 2)))⟩

/-- Loop of `nv12_B`: place a pair every `a` slots.  `m` increments
every iteration under `m < n`, so fuel `n` dominates. -/
def nv12B_go (w a area n : Nat) :
    Nat → Nat → Nat → List (Nat × Nat) → Nat × List (Nat × Nat)
  | 0, _, m, acc => (m, acc)
  | fuel + 1, o, m, acc =>
    if o + w ≤ area ∧ m < n then
      nv12B_go w a area n fuel (o + a) (m + 1) (acc ++ [(o % 256, o / 2 % 256)])
    else (m, acc)

/-- Simple layout `nv12_B`: aAbcBdeCfgDhEFGH, guarded by the
four-comparison feasibility test of the source. -/
def nv12_B (cfg : Cfg) (o w a n : Nat) : GenRes :=
  let area := cfg.band_8
  let e := (o + w) % a
  let o1 := o / 2 % a
  let e1 := (o + w + 1) / 2 % a
  let o2 := o1 + a / 4
  let e2 := e1 + a / 4
  if w < a ∧ o < e ∧ e1 ≤ o ∧ (e2 ≤ o ∨ e ≤ o2) then
    let r := nv12B_go w a area n n o 0 []
    ⟨r.1, area, r.2⟩
  else ⟨0, area, []⟩

/-- Loop of `nv12_C`: each iteration writes one pair near the start and
(while the count allows) one mirrored pair near the end.  The mirrored
offsets are C `int` expressions that can go negative, stored through a
`u8 *` (modelled by `u8`) after an arithmetic right shift (modelled by
`Int.fdiv · 2`).  `j` increases by 2 every iteration under the guard
`j < n`, so fuel `n + 1` dominates. -/
def nv12C_go (o w e o2 area n : Nat) (mI : Int) :
    Nat → Nat → Nat → List (Nat × Nat) → Nat × List (Nat × Nat)
  | 0, _, j, acc => (j, acc)
  | fuel + 1, i, j, acc =>
    if (i : Int) < mI ∧ j < n then
      let acc1 := acc ++ [((o + i * e) % 256, (o + i * e + area) / 2 % 256)]
      let j1 := j + 1
      let acc2 :=
        if j1 < n then
          acc1 ++ [(u8 ((o2 : Int) - i * e - w), u8 (((o2 : Int) - i * e - w).fdiv 2))]
        else acc1
      nv12C_go o w e o2 area n mI fuel (i + 1) (j1 + 1) acc2
    else (j, acc)

/-- Butterfly layout `nv12_C`: the analytic bound `m` is computed in C
`int` arithmetic (truncating division, `u16` wrap on `o2`), modelled
with `Int.tdiv` and `u16`. -/
def nv12_C (cfg : Cfg) (o w a n : Nat) : GenRes :=
  let area := cfg.band_8
  let e := ALIGN w a
  let o2 := u16 ((area : Int) - (((a - (o + w) % a) % a : Nat) : Int))
  let mI : Int :=
    ((min ((o2 : Int) - 2 * o) (2 * (o2 : Int) - o - area)).tdiv 3 - w).tdiv e + 1
  let r := nv12C_go o w e o2 area n mI (n + 1) 0 0 []
  ⟨r.1, area, r.2⟩

/-- Loop of `nv12_D`: sweep the 8-bit offset by `a` while it fits,
trying the 16-bit block before, then after, the 8-bit block.  `d`
increases by `a ≥ 1` each iteration and is bounded by `area`, so fuel
`area + 1` dominates. -/
def nv12D_go (o w a area w1 b8 b16 n : Nat) : Nat → Nat → Nat × List (Nat × Nat)
  | 0, _ => (0, [])
  | fuel + 1, d =>
    if 0 < n ∧ d + o + w ≤ area then
      let o1 := (o + d) % b8 / 2
      if o1 + w1 ≤ o + d then (1, [((o + d) % 256, o1 % 256)])
      else
        let o1' := o1 + ALIGN (d + o + w - o1) b16
        if o1' + w1 ≤ area then (1, [(o % 256, o1' % 256)])
        else nv12D_go o w a area w1 b8 b16 n fuel (d + a)
    else (0, [])

/-- Large-allocation layout `nv12_D`: aA or Aa, at most one pair. -/
def nv12_D (cfg : Cfg) (o w a n : Nat) : GenRes :=
  let area := ALIGN (o + w) cfg.band_8
  let r := nv12D_go o w a area ((w + 1) / 2) cfg.band_8 cfg.band_16 n (area + 1) 0
  ⟨r.1, area, r.2⟩

/-- The static special-case packing table of `nv12_together`, as the
flat zero-terminated byte sequence of the source:
`n, o, w, a, area, pairs…` per entry. -/
def packings : List Nat :=
  [9, 2, 4, 4, 64,
   2, 33, 6, 35, 10, 37, 14, 39, 18, 41,
   46, 23, 50, 25, 54, 27, 58, 29,
   3, 0, 12, 4, 64,
   0, 32, 12, 38, 48, 24,
   0]

/-- The table walk of `nv12_together`.  Takes the incumbent `n_best`
and `*area`; returns the final `n_best`, `*area`, and — when an entry
matched — the flat byte list `p_best` points at (the entry's pairs
followed by the rest of the table).  A leading `0` is the terminator;
an entry with `n2 < n_best` is the fake stop; an entry is satisfactory
when its alignment dominates and the offset check passes (a C `int`
comparison on a possibly-negative aligned difference). Each step drops
at least four list elements, so fuel `packings.length` dominates. -/
def tableGo (o w a n : Nat) : Nat → List Nat → Nat → Nat → Nat × Nat × Option (List Nat)
  | 0, _, n_best, area => (n_best, area, none)
  | fuel + 1, x :: o_ :: w_ :: a_ :: rest, n_best, area =>
    if x = 0 then (n_best, area, none)
    else if x < n_best then (n_best, area, none)
    else if a ≤ a_ ∧ (o : Int) + w + alignInt ((o_ : Int) - o) a ≤ (o_ : Int) + w_ then
      match rest with
      | ar :: rest2 => (min x n, ar, some rest2)
      | [] => (n_best, area, none)
    else tableGo o w a n fuel (rest.drop (1 + x * 2)) n_best area
  | _ + 1, _, n_best, area => (n_best, area, none)

/-- Group a flat byte list into consecutive pairs (reading a packing
buffer as `(offset8, offset16)` pairs). -/
def chunkPairs : List Nat → List (Nat × Nat)
  | a :: b :: rest => (a, b) :: chunkPairs rest
  | _ => []

/-- The five pattern generators, for the invocation trace of
`nv12_together`. -/
inductive Gen
  | A
  | rA
  | B
  | C
  | D
deriving DecidableEq

/-- Result of `nv12_together`: the returned count, the final `*area`,
the packing copied out (`none` when nothing is copied: zero count or
the `nv12_D` fallback, whose `p_best` is null), and the generators
invoked, in order. -/
structure TogRes where
  n : Nat
  area : Nat
  packing : Option (List (Nat × Nat))
  trace : List Gen
deriving DecidableEq

/-- The incumbent count of `nv12_together` after the `nv12_revA`
stage, as a standalone function of the inputs (for stating selection
properties). -/
def togBest2 (cfg : Cfg) (o w a n : Nat) : Nat :=
  if (nv12_A cfg o w a n).n < n then
    if (nv12_A cfg o w a n).n < (nv12_revA cfg o w a n).n then (nv12_revA cfg o w a n).n
    else (nv12_A cfg o w a n).n
  else (nv12_A cfg o w a n).n

/-- The incumbent count after the `nv12_B` stage. -/
def togBest3 (cfg : Cfg) (o w a n : Nat) : Nat :=
  if togBest2 cfg o w a n < n then
    if togBest2 cfg o w a n < (nv12_B cfg o w a n).n then (nv12_B cfg o w a n).n
    else togBest2 cfg o w a n
  else togBest2 cfg o w a n

/-- The incumbent count after the `nv12_C` stage (the value handed to
the special-case table walk). -/
def togBest4 (cfg : Cfg) (o w a n : Nat) : Nat :=
  if togBest3 cfg o w a n < n then
    if togBest3 cfg o w a n < (nv12_C cfg o w a n).n then (nv12_C cfg o w a n).n
    else togBest3 cfg o w a n
  else togBest3 cfg o w a n

/-- The incumbent packing (`p_best`) after the `nv12_revA` stage. -/
def togPick2 (cfg : Cfg) (o w a n : Nat) : List (Nat × Nat) :=
  if (nv12_A cfg o w a n).n < n then
    if (nv12_A cfg o w a n).n < (nv12_revA cfg o w a n).n then (nv12_revA cfg o w a n).pairs
    else (nv12_A cfg o w a n).pairs
  else (nv12_A cfg o w a n).pairs

/-- The incumbent packing after the `nv12_B` stage. -/
def togPick3 (cfg : Cfg) (o w a n : Nat) : List (Nat × Nat) :=
  if togBest2 cfg o w a n < n then
    if togBest2 cfg o w a n < (nv12_B cfg o w a n).n then (nv12_B cfg o w a n).pairs
    else togPick2 cfg o w a n
  else togPick2 cfg o w a n

/-- The incumbent packing after the `nv12_C` stage. -/
def togPick4 (cfg : Cfg) (o w a n : Nat) : List (Nat × Nat) :=
  if togBest3 cfg o w a n < n then
    if togBest3 cfg o w a n < (nv12_C cfg o w a n).n then (nv12_C cfg o w a n).pairs
    else togPick3 cfg o w a n
  else togPick3 cfg o w a n

/-- The generator-invocation trace of `nv12_together`, as a standalone
function (table walk excluded: it is not a generator). -/
def togTrace (cfg : Cfg) (o w a n : Nat) : List Gen :=
  [Gen.A] ++ (if (nv12_A cfg o w a n).n < n then [Gen.rA] else [])
    ++ (if togBest2 cfg o w a n < n then [Gen.B] else [])
    ++ (if togBest3 cfg o w a n < n then [Gen.C] else [])


/-- `nv12_together(o, w, a, n, &area, packing)`: try `nv12_A`,
`nv12_revA`, `nv12_B`, `nv12_C` in that order — each later generator
only while the incumbent count is short of `n`, replacing the incumbent
only on a strictly greater count (`togBest*` / `togPick*` above are the
incumbent after each stage) — then walk the special-case table, and
fall back to `nv12_D` only if the count is still zero.  The final
`memcpy` copies `n_best` pairs from `p_best` when `p_best` is non-null
(null after the `nv12_D` fallback) and `n_best` is nonzero; when the
winner wrote fewer pairs than its returned count, the C copy reads
unwritten buffer bytes — the model keeps just the written pairs. -/
def nv12_together (cfg : Cfg) (o w a n : Nat) : TogRes :=
  let t := tableGo o w a n packings.length packings (togBest4 cfg o w a n) cfg.band_8
  if t.1 = 0 then
    ⟨(nv12_D cfg o w a n).n, (nv12_D cfg o w a n).area, none,
      togTrace cfg o w a n ++ [Gen.D]⟩
  else
    match t.2.2 with
    | some rest2 => ⟨t.1, t.2.1, some ((chunkPairs rest2).take t.1), togTrace cfg o w a n⟩
    | none => ⟨t.1, t.2.1, some ((togPick4 cfg o w a n).take t.1), togTrace cfg o w a n⟩

def TILFMT_8BIT : Nat := 1
def TILFMT_16BIT : Nat := 2
def TILFMT_32BIT : Nat := 3

/-- The external allocator interface consumed by the orchestration
loops, as state-passing functions over an oracle state `σ`:
`lay_2d fmt n w h band align offs s` returns the C result (laid count,
or negative on failure), the area handles it appended to the list it
was passed, and the next state; `lay_nv12 n area w h packing s` returns
the C result and the next state. -/
structure AllocOps (σ : Type) where
  lay_2d : Nat → Nat → Nat → Nat → Nat → Nat → Nat → σ → Int × List Nat × σ
  lay_nv12 : Nat → Nat → Nat → Nat → Option (List (Nat × Nat)) → σ → Int × σ

/-- Outcome of the separate-path commit attempt of `reserve_nv12`
(lines 358–376): the final `res`, the list handed to `release` (empty
when nothing is released), the list handed to `add_reserved` (empty
when nothing is merged), the `lay_2d` calls made as `(fmt, count)`
pairs in order, and the final oracle state. -/
structure SepCommit (σ : Type) where
  res : Int
  released : List Nat
  merged : List Nat
  calls : List (Nat × Nat)
  state : σ

/-- The separate-path commit of `reserve_nv12`: lay the 8-bit areas
into the temporary `reserved` list; only on success lay the matching
16-bit areas; on failure or a count mismatch release the whole
temporary list, otherwise merge it into the group's permanent list. -/
def sep_commit {σ : Type} (ops : AllocOps σ) (s : σ) (n_s w h band a o : Nat) :
    SepCommit σ :=
  let r1 := ops.lay_2d TILFMT_8BIT n_s w h band a o s
  if r1.1 < 0 then
    ⟨-1, r1.2.1, [], [(TILFMT_8BIT, n_s)], r1.2.2⟩
  else
    let r2 := ops.lay_2d TILFMT_16BIT n_s ((w + 1) / 2) h (band / 2) (a / 2) (o / 2) r1.2.2
    let reserved := r1.2.1 ++ r2.2.1
    if r2.1 < 0 ∨ r1.1 ≠ r2.1 then
      ⟨-1, reserved, [], [(TILFMT_8BIT, n_s), (TILFMT_16BIT, n_s)], r2.2.2⟩
    else
      ⟨r1.1, [], reserved, [(TILFMT_8BIT, n_s), (TILFMT_16BIT, n_s)], r2.2.2⟩

/-- One iteration of the `reserve_nv12` orchestration loop (the body of
the `for` at line 342): compute both candidates for the remaining count
`n - i`, pick by `nv12_eff`, attempt the separate-path commit and, if
that fails (or was not chosen) and co-packing is allowed with a nonzero
candidate, attempt `lay_nv12`.  Returns the iteration's `res`, the next
oracle state, and the group's permanent reserved list (grown by the
merged areas).  In C `area_s` starts out as an uninitialized stack
value when the 8-bit scan places nothing; the model passes `0` for that
initial value. -/
def nv12Body {σ : Type} (cfg : Cfg) (ops : AllocOps σ) (can_together : Bool)
    (w h band a o n i : Nat) (s : σ) (perm : List Nat) : Int × σ × List Nat :=
  let sep := nv12_separate cfg o w a (n - i) 0
  let tg := nv12_together cfg o w a (n - i)
  let n_t := if can_together then tg.n else 0
  if ¬can_together = true ∨ nv12_eff n_t w tg.area (n - i) < nv12_eff sep.1 w sep.2 (n - i) then
    let sc := sep_commit ops s sep.1 w h band a o
    if sc.res < 0 ∧ can_together = true ∧ n_t ≠ 0 then
      let r := ops.lay_nv12 n_t tg.area w h tg.packing sc.state
      (r.1, r.2, perm ++ sc.merged)
    else (sc.res, sc.state, perm ++ sc.merged)
  else
    if can_together = true ∧ n_t ≠ 0 then
      let r := ops.lay_nv12 n_t tg.area w h tg.packing s
      (r.1, r.2, perm)
    else (-1, s, perm)

/-- The `for (i = 0; i < n && res >= 0; i += res)` loop of
`reserve_nv12`.  The loop has no intrinsic bound (`res = 0` repeats an
iteration), so the fuel is exposed: `none` means the fuel was exhausted
with the loop still running.  `some (i, s, perm)` is normal exit. -/
def nv12Loop {σ : Type} (cfg : Cfg) (ops : AllocOps σ) (can_together : Bool)
    (w h band a o n : Nat) :
    Nat → Nat → Int → σ → List Nat → Option (Nat × σ × List Nat)
  | 0, _, _, _, _ => none
  | fuel + 1, i, res, s, perm =>
    if i < n ∧ 0 ≤ res then
      let r := nv12Body cfg ops can_together w h band a o n i s perm
      nv12Loop cfg ops can_together w h band a o n fuel ((i : Int) + r.1).toNat r.1 r.2.1 r.2.2
    else some (i, s, perm)

/-- The input validation of `reserve_nv12` (line 324): true exactly
when the request is silently dropped. -/
def nv12_reject (cfg : Cfg) (n width height align offs : Nat) : Bool :=
  decide (width = 0 ∨ height = 0 ∨ n = 0 ∨ align ≤ offs ∨ offs % 2 = 1 ∨
    PAGE_SIZE ≤ align ∨ cfg.width * cfg.height / 2 < n)

/-- `reserve_nv12`: validate the raw request, then run the orchestration
loop on the slot-unit parameters `w, h, band, a, o` produced by the
external `analize` step (free parameters here).  `none` from a `true`
reject is the silent early return (no collaborator is invoked); `none`
from the loop is exhausted fuel. -/
def reserve_nv12 {σ : Type} (cfg : Cfg) (ops : AllocOps σ) (can_together : Bool)
    (n width height align offs : Nat) (w h band a o : Nat) (fuel : Nat) (s : σ) :
    Option (Nat × σ × List Nat) :=
  if nv12_reject cfg n width height align offs then none
  else nv12Loop cfg ops can_together w h band a o n fuel 0 0 s []

/-- The input validation of `reserve_blocks` (line 400): true exactly
when the request is silently dropped. -/
def blocks_reject (n fmt width height align offs : Nat) : Bool :=
  decide (width = 0 ∨ height = 0 ∨ n = 0 ∨ PAGE_SIZE < align ∨ align ≤ offs ∨
    fmt < TILFMT_8BIT ∨ TILFMT_32BIT < fmt)

/-- The `while (n_try > 1)` retry loop of `reserve_blocks`.
`reserve_blocks` declares `res` as `u32` (line 394), so every value the
loop stores into `res` is wrapped to an unsigned 32-bit value, and the
test `if (res >= 0) break` is an UNSIGNED comparison — always true.
The loop body therefore breaks after its first `lay_2d` attempt no
matter the result, and the `n_try--` decrement is dead code: at most
one attempt is made, at the initial `n_try` (entering the loop requires
`n_try > 1`; otherwise `res` keeps the wrapped `res = -1` assigned just
before the loop).  The always-true comparison is kept in the
definition to mirror the source structure.  Also returns the permanent
list (areas are laid directly into `gi->reserved` here) and the list of
attempted counts, in order. -/
def rbInner {σ : Type} (ops : AllocOps σ) (fmt w h band a o : Nat) :
    Nat → σ → List Nat → List Nat → Nat × σ × List Nat × List Nat
  | 0, s, perm, tr => (u32 (-1), s, perm, tr)
  | 1, s, perm, tr => (u32 (-1), s, perm, tr)
  | n_try + 2, s, perm, tr =>
    let r := ops.lay_2d fmt (n_try + 2) w h band a o s
    if 0 ≤ u32 r.1 then (u32 r.1, r.2.2, perm ++ r.2.1, tr ++ [n_try + 2])
    else rbInner ops fmt w h band a o (n_try + 1) r.2.2 (perm ++ r.2.1) (tr ++ [n_try + 2])

/-- The outer loop of `reserve_blocks`.  `i` and `res` are both `u32`,
so the guard conjunct `res >= 0` is always true (the loop stops only
once `i ≥ n`; it is kept to mirror the source) and `i += res` wraps
modulo `2^32`: a wrapped failure result `(u32)(-1)` walks `i` DOWN by
one instead of stopping the loop.  Note the source passes the raw
`offs` (not the normalized `o`) to `tiler_best2pack`, and the
normalized `o` to `lay_2d`; both are kept as separate parameters. -/
def rbLoop {σ : Type} (cfg : Cfg) (ops : AllocOps σ) (fmt w h band a o offs e n : Nat) :
    Nat → Nat → Nat → σ → List Nat → Option (Nat × σ × List Nat)
  | 0, _, _, _, _ => none
  | fuel + 1, i, res, s, perm =>
    if i < n ∧ 0 ≤ res then
      let n_try := (tiler_best2pack cfg.width offs w e band (min (n - i) cfg.width) 0).n
      let r := rbInner ops fmt w h band a o n_try s perm []
      rbLoop cfg ops fmt w h band a o offs e n fuel ((i + r.1) % 4294967296) r.1 r.2.1 r.2.2.1
    else some (i, s, perm)

/-- `reserve_blocks`: validate, apply the small-block cutoff
(`width * bpp * 2 <= PAGE_SIZE`, with `bpp` from the external geometry),
then run the outer loop with `e = ALIGN(w, a)`. -/
def reserve_blocks {σ : Type} (cfg : Cfg) (ops : AllocOps σ)
    (n fmt width height align offs : Nat) (bpp w h band a o : Nat) (fuel : Nat) (s : σ) :
    Option (Nat × σ × List Nat) :=
  if blocks_reject n fmt width height align offs then none
  else if width * bpp * 2 ≤ PAGE_SIZE then none
  else rbLoop cfg ops fmt w h band a o offs (ALIGN w a) n fuel 0 0 s []

/-- Oracle whose `lay_2d` and `lay_nv12` always report zero committed
blocks — a legal "committed_count" per the collaborator interface. -/
def zeroOps : AllocOps Unit :=
  ⟨fun _ _ _ _ _ _ _ _ => (0, [], ()), fun _ _ _ _ _ _ => (0, ())⟩

/-- Oracle whose commits always report one committed block. -/
def oneOps : AllocOps Unit :=
  ⟨fun _ _ _ _ _ _ _ _ => (1, [0], ()), fun _ _ _ _ _ _ => (1, ())⟩

/-- Oracle that echoes the requested count and records one area handle
per call (used to exercise the equal-success path of the separate-path
commit). -/
def echoOps : AllocOps Unit :=
  ⟨fun fmt m _ _ _ _ _ _ => ((m : Int), [fmt], ()), fun _ _ _ _ _ _ => (-1, ())⟩

/-- Stateless oracle for `reserve_blocks` whose `lay_2d` result depends
only on the requested count, via `f`. -/
def countOps (f : Nat → Int) : AllocOps Unit :=
  ⟨fun _ m _ _ _ _ _ _ => (f m, [m], ()), fun _ _ _ _ _ _ => (-1, ())⟩

/-- Acceptance function that accepts exactly a single-block commit. -/
def acceptOne : Nat → Int :=
  fun m => if m = 1 then 1 else -1

/-- Containment of one `(offset8, offset16)` pair of width `w` in an
area of size `area`: the 8-bit block and the half-width 16-bit block
both end within the area. -/
def contained (w area : Nat) (p : Nat × Nat) : Prop :=
  p.1 + w ≤ area ∧ p.2 + (w + 1) / 2 ≤ area

instance (w area : Nat) (p : Nat × Nat) : Decidable (contained w area p) := by
  unfold contained; infer_instance

/-! ## Arithmetic facts about `ALIGN` -/

theorem le_ALIGN (x b : Nat) (hb : 0 < b) : x ≤ ALIGN x b := by
  have h1 := Nat.mod_lt (x + b - 1) hb
  have h2 := Nat.mod_le (x + b - 1) b
  unfold ALIGN
  omega

theorem ALIGN_dvd (x b : Nat) : b ∣ ALIGN x b := by
  refine ⟨(x + b - 1) / b, ?_⟩
  have h := Nat.div_add_mod (x + b - 1) b
  unfold ALIGN
  omega

theorem ALIGN_of_dvd (z b : Nat) (hb : 0 < b) (h : b ∣ z) : ALIGN z b = z := by
  obtain ⟨k, rfl⟩ := h
  have harg : b * k + b - 1 = b * k + (b - 1) := by omega
  have hmod : (b * k + (b - 1)) % b = b - 1 := by
    rw [Nat.mul_add_mod]
    exact Nat.mod_eq_of_lt (by omega)
  unfold ALIGN
  rw [harg, hmod]
  omega

theorem ALIGN_sub (b q t : Nat) (hb : 0 < b) (ht : t ≤ b * q) :
    ALIGN (b * q - t) b = b * q - TRIM t b := by
  have hdm := Nat.div_add_mod t b
  have hs : t % b < b := Nat.mod_lt _ hb
  rcases Nat.eq_zero_or_pos (t % b) with h0 | hpos
  · have hzt : t = b * (t / b) := by omega
    have hd : t / b ≤ q := Nat.le_of_mul_le_mul_left (by omega) hb
    have hexp : b * (q - t / b) + b * (t / b) = b * q := by
      have h1 : q - t / b + t / b = q := by omega
      calc b * (q - t / b) + b * (t / b) = b * (q - t / b + t / b) := (Nat.mul_add b _ _).symm
        _ = b * q := by rw [h1]
    have harg : b * q - t = b * (q - t / b) := by omega
    rw [harg, ALIGN_of_dvd _ b hb ⟨q - t / b, rfl⟩]
    unfold TRIM
    omega
  · have hd : t / b < q := Nat.lt_of_mul_lt_mul_left (a := b) (by omega)
    have hexp : b * (q - t / b) + b * (t / b) = b * q := by
      have h1 : q - t / b + t / b = q := by omega
      calc b * (q - t / b) + b * (t / b) = b * (q - t / b + t / b) := (Nat.mul_add b _ _).symm
        _ = b * q := by rw [h1]
    have harg : b * q - t + b - 1 = b * (q - t / b) + (b - 1 - t % b) := by omega
    have hmod : (b * (q - t / b) + (b - 1 - t % b)) % b = b - 1 - t % b := by
      rw [Nat.mul_add_mod]
      exact Nat.mod_eq_of_lt (by omega)
    unfold ALIGN TRIM
    rw [harg, hmod]
    omega

/-- Bridge between the stride test of the `tiler_best2pack` loop
(computed on the running area) and the per-block stride of the source
comment (`align - trim`). -/
theorem b2p_stride_bridge (o w e b m : Nat) (hb : 0 < b) :
    ALIGN (ALIGN (o + m * e + w) b - (o + m * e)) b =
      ALIGN (o + m * e + w) b - TRIM (o + m * e) b := by
  obtain ⟨q, hq⟩ := ALIGN_dvd (o + m * e + w) b
  have hge := le_ALIGN (o + m * e + w) b hb
  rw [hq]
  exact ALIGN_sub b q (o + m * e) hb (by omega)

/-! ## Invariants of the `tiler_best2pack` loop -/

/-- Soundness of the scan loop: starting at position `m` with the
matching running area, either the accumulators come back unchanged, or
the loop commits to some `m' ∈ (m, max_n]` all of whose blocks are
valid, and returns exactly that count, its area, and its efficiency
(strictly better than the incumbent). -/
theorem b2pGo_sound (width o w e b max_n : Nat) (hb : 0 < b) :
    ∀ fuel m best n area,
      b2pGo width o w e b max_n fuel m (ALIGN (o + m * e + w) b) best n area =
        ⟨best, n, area⟩ ∨
      ∃ m', m < m' ∧ m' ≤ max_n ∧
        (∀ k, m ≤ k → k < m' → b2pCond width o w e b k) ∧
        b2pGo width o w e b max_n fuel m (ALIGN (o + m * e + w) b) best n area =
          ⟨m' * w * 1024 / ALIGN (o + (m' - 1) * e + w) b, m',
            ALIGN (o + (m' - 1) * e + w) b⟩ ∧
        best < m' * w * 1024 / ALIGN (o + (m' - 1) * e + w) b := by
  intro fuel
  induction fuel with
  | zero => intro m best n area; exact Or.inl rfl
  | succ fuel ih =>
    intro m best n area
    by_cases hg : m < max_n ∧ o + m * e + w ≤ width ∧
        ALIGN (o + w) b = ALIGN (ALIGN (o + m * e + w) b - (o + m * e)) b
    · obtain ⟨hm, hfit, hstr⟩ := hg
      have hcond : b2pCond width o w e b m :=
        ⟨hfit, by rw [← b2p_stride_bridge o w e b m hb]; omega⟩
      have hstep : b2pGo width o w e b max_n (fuel + 1) m
          (ALIGN (o + m * e + w) b) best n area =
          (if (m + 1) * w * 1024 / ALIGN (o + m * e + w) b > best then
            b2pGo width o w e b max_n fuel (m + 1) (ALIGN (o + (m + 1) * e + w) b)
              ((m + 1) * w * 1024 / ALIGN (o + m * e + w) b) (m + 1)
              (ALIGN (o + m * e + w) b)
          else
            b2pGo width o w e b max_n fuel (m + 1) (ALIGN (o + (m + 1) * e + w) b)
              best n area) := by
        simp only [b2pGo]
        rw [if_pos ⟨hm, hfit, hstr⟩]
      by_cases heff : (m + 1) * w * 1024 / ALIGN (o + m * e + w) b > best
      · rw [hstep, if_pos heff]
        rcases ih (m + 1) ((m + 1) * w * 1024 / ALIGN (o + m * e + w) b) (m + 1)
            (ALIGN (o + m * e + w) b) with h | ⟨m'', h1, h2, h3, h4, h5⟩
        · refine Or.inr ⟨m + 1, Nat.lt_succ_self m, hm, ?_, ?_, ?_⟩
          · intro k hk1 hk2
            have : k = m := by omega
            rwa [this]
          · rw [h]
            have : m + 1 - 1 = m := by omega
            rw [this]
          · have : m + 1 - 1 = m := by omega
            rw [this]
            exact heff
        · refine Or.inr ⟨m'', by omega, h2, ?_, h4, by omega⟩
          intro k hk1 hk2
          rcases Nat.eq_or_lt_of_le hk1 with h | h
          · rwa [← h]
          · exact h3 k h hk2
      · rw [hstep, if_neg heff]
        rcases ih (m + 1) best n area with h | ⟨m'', h1, h2, h3, h4, h5⟩
        · exact Or.inl h
        · refine Or.inr ⟨m'', by omega, h2, ?_, h4, h5⟩
          intro k hk1 hk2
          rcases Nat.eq_or_lt_of_le hk1 with h | h
          · rwa [← h]
          · exact h3 k h hk2
    · left
      simp only [b2pGo]
      rw [if_neg hg]

/-- Maximality of the scan loop: with enough fuel, the returned
efficiency dominates the incumbent and the efficiency of every valid
run length `j` the scan could still reach from position `m`. -/
theorem b2pGo_max (width o w e b max_n : Nat) (hb : 0 < b) :
    ∀ fuel m best n area, max_n ≤ m + fuel →
      best ≤ (b2pGo width o w e b max_n fuel m (ALIGN (o + m * e + w) b)
          best n area).eff ∧
      ∀ j, m < j → j ≤ max_n → (∀ k, m ≤ k → k < j → b2pCond width o w e b k) →
        j * w * 1024 / ALIGN (o + (j - 1) * e + w) b ≤
          (b2pGo width o w e b max_n fuel m (ALIGN (o + m * e + w) b)
            best n area).eff := by
  intro fuel
  induction fuel with
  | zero =>
    intro m best n area hfuel
    exact ⟨Nat.le_refl _, fun j hj1 hj2 _ => by omega⟩
  | succ fuel ih =>
    intro m best n area hfuel
    by_cases hg : m < max_n ∧ o + m * e + w ≤ width ∧
        ALIGN (o + w) b = ALIGN (ALIGN (o + m * e + w) b - (o + m * e)) b
    · obtain ⟨hm, hfit, hstr⟩ := hg
      have hstep : b2pGo width o w e b max_n (fuel + 1) m
          (ALIGN (o + m * e + w) b) best n area =
          (if (m + 1) * w * 1024 / ALIGN (o + m * e + w) b > best then
            b2pGo width o w e b max_n fuel (m + 1) (ALIGN (o + (m + 1) * e + w) b)
              ((m + 1) * w * 1024 / ALIGN (o + m * e + w) b) (m + 1)
              (ALIGN (o + m * e + w) b)
          else
            b2pGo width o w e b max_n fuel (m + 1) (ALIGN (o + (m + 1) * e + w) b)
              best n area) := by
        simp only [b2pGo]
        rw [if_pos ⟨hm, hfit, hstr⟩]
      by_cases heff : (m + 1) * w * 1024 / ALIGN (o + m * e + w) b > best
      · rw [hstep, if_pos heff]
        obtain ⟨ha, hj⟩ := ih (m + 1) ((m + 1) * w * 1024 / ALIGN (o + m * e + w) b)
          (m + 1) (ALIGN (o + m * e + w) b) (by omega)
        refine ⟨by omega, ?_⟩
        intro j hj1 hj2 hconds
        rcases Nat.eq_or_lt_of_le hj1 with h | h
        · have hj0 : j - 1 = m := by omega
          rw [hj0, ← h]
          exact ha
        · exact hj j h hj2 (fun k hk1 hk2 => hconds k (by omega) hk2)
      · rw [hstep, if_neg heff]
        obtain ⟨ha, hj⟩ := ih (m + 1) best n area (by omega)
        refine ⟨ha, ?_⟩
        intro j hj1 hj2 hconds
        rcases Nat.eq_or_lt_of_le hj1 with h | h
        · have hj0 : j - 1 = m := by omega
          rw [hj0, ← h]
          simp only [Nat.succ_eq_add_one]
          omega
        · exact hj j h hj2 (fun k hk1 hk2 => hconds k (by omega) hk2)
    · have hstop : b2pGo width o w e b max_n (fuel + 1) m
          (ALIGN (o + m * e + w) b) best n area = ⟨best, n, area⟩ := by
        simp only [b2pGo]
        rw [if_neg hg]
      rw [hstop]
      refine ⟨Nat.le_refl _, ?_⟩
      intro j hj1 hj2 hconds
      obtain ⟨hfit, hstr⟩ := hconds m (Nat.le_refl m) hj1
      exact absurd ⟨by omega, hfit, by rw [b2p_stride_bridge o w e b m hb]; omega⟩ hg

/-- The degenerate exit of `tiler_best2pack`: if even a single block
does not fit the container, the loop body never runs — zero efficiency,
`*n` and `*area` untouched. -/
theorem b2p_nofit (width o w e b n area : Nat) (h : width < o + w) :
    tiler_best2pack width o w e b n area = ⟨0, n, area⟩ := by
  unfold tiler_best2pack
  cases n with
  | zero => rfl
  | succ k =>
    simp only [b2pGo]
    rw [if_neg (by intro hg; omega)]

/-- Top-level call of the scan, phrased so that the loop lemmas (whose
running area is `ALIGN (o + m*e + w) b` at position `m`) apply at
`m = 0`. -/
theorem tiler_best2pack_eq_go (width o w e b n area : Nat) :
    tiler_best2pack width o w e b n area =
      b2pGo width o w e b n n 0 (ALIGN (o + 0 * e + w) b) 0 n area := by
  unfold tiler_best2pack
  have h : o + 0 * e + w = o + w := by ring
  rw [h]

/-- C2: for every input `(o, w, e, b)` with `w > 0` and upper bound `n`
on the count, `tiler_best2pack` (1) returns an efficiency at least
`j*w*1024 / area(j)` for every valid run length `j` the scan reaches —
i.e. it maximizes density over all scanned lengths, not the length
itself; (2) whenever its efficiency is nonzero, the returned count is a
valid scanned length whose area and density are exactly the returned
`*area` and efficiency; (3) if even a single block does not fit the
container, it returns zero efficiency and leaves `*n` and `*area`
unchanged. -/
theorem tiler_best2pack_selects_densest (width o w e b n area : Nat)
    (hw : 0 < w) (hb : 0 < b) :
    (∀ j, 1 ≤ j → j ≤ n → (∀ k, k < j → b2pCond width o w e b k) →
      j * w * 1024 / ALIGN (o + (j - 1) * e + w) b ≤
        (tiler_best2pack width o w e b n area).eff) ∧
    ((tiler_best2pack width o w e b n area).eff ≠ 0 →
      ∃ m', 1 ≤ m' ∧ m' ≤ n ∧ (∀ k, k < m' → b2pCond width o w e b k) ∧
        tiler_best2pack width o w e b n area =
          ⟨m' * w * 1024 / ALIGN (o + (m' - 1) * e + w) b, m',
            ALIGN (o + (m' - 1) * e + w) b⟩) ∧
    (width < o + w → tiler_best2pack width o w e b n area = ⟨0, n, area⟩) := by
  have heq := tiler_best2pack_eq_go width o w e b n area
  refine ⟨?_, ?_, fun h => b2p_nofit width o w e b n area h⟩
  · intro j hj1 hj2 hconds
    have h := (b2pGo_max width o w e b n hb n 0 0 n area (by omega)).2 j
      (by omega) hj2 (fun k _ hk2 => hconds k hk2)
    rw [heq]
    exact h
  · intro hne
    rcases b2pGo_sound width o w e b n hb n 0 0 n area with h | ⟨m', h1, h2, h3, h4, h5⟩
    · rw [heq, h] at hne
      exact absurd rfl hne
    · exact ⟨m', by omega, h2, fun k hk => h3 k (by omega) hk, by rw [heq, h4]⟩

/-- Witness for C2 at the concrete input `(o, w, e, b, n) =
(0, 4, 4, 64, 3)` in a 256-slot container: the returned efficiency is
nonzero and dominates the density of the full valid run of length 3. -/
theorem tiler_best2pack_selects_densest_witness :
    (tiler_best2pack 256 0 4 4 64 3 77).eff ≠ 0 ∧
    3 * 4 * 1024 / ALIGN (0 + (3 - 1) * 4 + 4) 64 ≤
      (tiler_best2pack 256 0 4 4 64 3 77).eff := by
  have h := tiler_best2pack_selects_densest 256 0 4 4 64 3 77 (by decide) (by decide)
  exact ⟨by decide, h.1 3 (by decide) (by decide) (by decide)⟩

/-- C3: for valid `(o, w, a, b)` with `w > 0`, `o < a`, every block `k`
of the run claimed by `tiler_best2pack` (blocks at `o, o+e, …`) fits in
the container, and its row stride — `align(o + k*e + w, b) - trim(o +
k*e, b)` per the source comment — equals the single-block stride
`align(o + w, b)`. -/
theorem tiler_best2pack_run_valid (width o w e b a n area : Nat)
    (hw : 0 < w) (ho : o < a) (hb : 0 < b)
    (heff : (tiler_best2pack width o w e b n area).eff ≠ 0) :
    ∀ k, k < (tiler_best2pack width o w e b n area).n →
      o + k * e + w ≤ width ∧
      ALIGN (o + k * e + w) b - TRIM (o + k * e) b = ALIGN (o + w) b := by
  have heq := tiler_best2pack_eq_go width o w e b n area
  rcases b2pGo_sound width o w e b n hb n 0 0 n area with h | ⟨m', _, _, h3, h4, _⟩
  · rw [heq, h] at heff
    exact absurd rfl heff
  · intro k hk
    rw [heq, h4] at hk
    exact h3 k (by omega) hk

/-- Witness for C3 at `(o, w, e, b, a, n) = (0, 4, 4, 64, 2, 3)`,
instantiated at block `k = 2` of the claimed run of length 3: the block
fits and shares the single-block stride. -/
theorem tiler_best2pack_run_valid_witness :
    0 + 2 * 4 + 4 ≤ 256 ∧
    ALIGN (0 + 2 * 4 + 4) 64 - TRIM (0 + 2 * 4) 64 = ALIGN (0 + 4) 64 :=
  tiler_best2pack_run_valid 256 0 4 4 64 2 3 77 (by decide) (by decide) (by decide)
    (by decide) 2 (by decide)

/-- C4 counterexample: at `(o, w, a, n) = (0, 300, 2, 1)` (valid: `w >
0`, `o < a`, `2 ≤ a`) in the OMAP container, `nv12_separate` returns
count 1 — not 0 — although its 8-bit sub-plan cannot place even one
block (the 8-bit scan has zero efficiency and block 0 of a width-300
run violates the container bound), so the returned count is not
achievable by both sub-plans and the function did not return zero. -/
theorem nv12_separate_mismatch_cex :
    (nv12_separate cfgOmap 0 300 2 1 0).1 = 1 ∧ (1 : Nat) ≠ 0 ∧
    ¬ b2pCond cfgOmap.width 0 300 (ALIGN 300 2) cfgOmap.band_8 0 ∧
    (tiler_best2pack cfgOmap.width 0 300 (ALIGN 300 2) cfgOmap.band_8 1 0).eff = 0 ∧
    0 < 300 ∧ 0 < 2 ∧ 2 ≤ 2 := by
  decide

/-- C4 (amended): when BOTH plane scans achieve nonzero efficiency, the
count returned by `nv12_separate` is achievable by both sub-plans: it
is the 16-bit scan's best count, bounded by the 8-bit scan's count
(hence the minimum the two planes support in common), every block of
both plane runs is valid, and the combined area estimate is three times
the last scan area.  (When a scan places nothing, the input count is
passed through unchanged — never forced to zero — and need not be
achievable by the 8-bit plane, as the counterexample shows.) -/
theorem nv12_separate_matched_counts (cfg : Cfg) (o w a n area0 : Nat)
    (hb8 : 0 < cfg.band_8) (hb16 : 0 < cfg.band_16) :
    ∀ r1 r2 : B2P,
      r1 = tiler_best2pack cfg.width o w (ALIGN w a) cfg.band_8 n area0 →
      r2 = tiler_best2pack cfg.width (o / 2) ((w + 1) / 2) (ALIGN w a / 2)
        cfg.band_16 r1.n r1.area →
      r1.eff ≠ 0 → r2.eff ≠ 0 →
      (nv12_separate cfg o w a n area0).1 = r2.n ∧
      (nv12_separate cfg o w a n area0).2 = r2.area * 3 ∧
      1 ≤ r2.n ∧ r2.n ≤ r1.n ∧ r1.n ≤ n ∧
      (∀ k, k < r2.n → b2pCond cfg.width o w (ALIGN w a) cfg.band_8 k) ∧
      (∀ k, k < r2.n →
        b2pCond cfg.width (o / 2) ((w + 1) / 2) (ALIGN w a / 2) cfg.band_16 k) := by
  intro r1 r2 hr1 hr2 h1 h2
  have heq1 := tiler_best2pack_eq_go cfg.width o w (ALIGN w a) cfg.band_8 n area0
  have heq2 := tiler_best2pack_eq_go cfg.width (o / 2) ((w + 1) / 2) (ALIGN w a / 2)
    cfg.band_16 r1.n r1.area
  rcases b2pGo_sound cfg.width o w (ALIGN w a) cfg.band_8 n hb8 n 0 0 n area0 with
    h | ⟨m1, hm1a, hm1b, hconds1, hval1, _⟩
  · rw [hr1, heq1, h] at h1
    exact absurd rfl h1
  · rcases b2pGo_sound cfg.width (o / 2) ((w + 1) / 2) (ALIGN w a / 2) cfg.band_16
      r1.n hb16 r1.n 0 0 r1.n r1.area with h' | ⟨m2, hm2a, hm2b, hconds2, hval2, _⟩
    · rw [hr2, heq2, h'] at h2
      exact absurd rfl h2
    · have hrn1 : r1.n = m1 := by rw [hr1, heq1, hval1]
      have hrn2 : r2.n = m2 := by rw [hr2, heq2, hval2]
      have hsep : nv12_separate cfg o w a n area0 = (r2.n, r2.area * 3) := by
        rw [hr2, hr1]
        rfl
      refine ⟨by rw [hsep], by rw [hsep], by omega, by omega, by omega, ?_, ?_⟩
      · intro k hk
        exact hconds1 k (by omega) (by omega)
      · intro k hk
        exact hconds2 k (by omega) (by omega)

/-- Witness for C4 (amended) at `(o, w, a, n) = (0, 4, 4, 3)`: both
scans succeed with equal count 3, valid on both planes. -/
theorem nv12_separate_matched_counts_witness :
    (nv12_separate cfgOmap 0 4 4 3 0).1 = (⟨96, 3, 64⟩ : B2P).n ∧
    (nv12_separate cfgOmap 0 4 4 3 0).2 = (⟨96, 3, 64⟩ : B2P).area * 3 ∧
    1 ≤ (⟨96, 3, 64⟩ : B2P).n ∧ (⟨96, 3, 64⟩ : B2P).n ≤ (⟨192, 3, 64⟩ : B2P).n ∧
    (⟨192, 3, 64⟩ : B2P).n ≤ 3 ∧
    (∀ k, k < (⟨96, 3, 64⟩ : B2P).n →
      b2pCond cfgOmap.width 0 4 (ALIGN 4 4) cfgOmap.band_8 k) ∧
    (∀ k, k < (⟨96, 3, 64⟩ : B2P).n →
      b2pCond cfgOmap.width (0 / 2) ((4 + 1) / 2) (ALIGN 4 4 / 2) cfgOmap.band_16 k) :=
  nv12_separate_matched_counts cfgOmap 0 4 4 3 0 (by decide) (by decide)
    ⟨192, 3, 64⟩ ⟨96, 3, 64⟩ (by decide) (by decide) (by decide) (by decide)

/-! ## Structure of `nv12_together` -/

/-- The table walk either leaves the incumbent untouched (no match) or
commits to a matched entry: count `min x n` for a nonzero table count
`x`, that entry's area, and a pointer into the table bytes. -/
theorem tableGo_cases (o w a n : Nat) :
    ∀ fuel l n_best area,
      tableGo o w a n fuel l n_best area = (n_best, area, none) ∨
      ∃ x ar rest2, 1 ≤ x ∧
        tableGo o w a n fuel l n_best area = (min x n, ar, some rest2) := by
  intro fuel
  induction fuel with
  | zero => intro l n_best area; exact Or.inl rfl
  | succ fuel ih =>
    intro l n_best area
    match l with
    | [] => exact Or.inl rfl
    | [x] => exact Or.inl rfl
    | [x, y] => exact Or.inl rfl
    | [x, y, z] => exact Or.inl rfl
    | x :: o_ :: w_ :: a_ :: rest =>
      simp only [tableGo]
      by_cases h0 : x = 0
      · rw [if_pos h0]
        exact Or.inl rfl
      · rw [if_neg h0]
        by_cases h1 : x < n_best
        · rw [if_pos h1]
          exact Or.inl rfl
        · rw [if_neg h1]
          by_cases h2 : a ≤ a_ ∧ (o : Int) + w + alignInt ((o_ : Int) - o) a ≤ (o_ : Int) + w_
          · rw [if_pos h2]
            match rest with
            | [] => exact Or.inl rfl
            | ar :: rest2 => exact Or.inr ⟨x, ar, rest2, by omega, rfl⟩
          · rw [if_neg h2]
            exact ih _ _ _

/-- The invocation trace of `nv12_together` is `togTrace` plus a final
`nv12_D` exactly when the post-table count is zero. -/
theorem tog_trace_eq (cfg : Cfg) (o w a n : Nat) :
    (nv12_together cfg o w a n).trace =
      togTrace cfg o w a n ++
        (if (tableGo o w a n packings.length packings (togBest4 cfg o w a n)
            cfg.band_8).1 = 0 then [Gen.D] else []) := by
  unfold nv12_together
  by_cases h : (tableGo o w a n packings.length packings (togBest4 cfg o w a n)
      cfg.band_8).1 = 0
  · simp only [h, if_true, ite_true]
  · simp only [h, if_false, ite_false]
    rcases hm : (tableGo o w a n packings.length packings (togBest4 cfg o w a n)
        cfg.band_8).2.2 with _ | rest2 <;> simp [hm, List.append_nil]

/-- Count, area and packing of `nv12_together`, by cases on the
post-table state. -/
theorem tog_result_eq (cfg : Cfg) (o w a n : Nat) :
    ((tableGo o w a n packings.length packings (togBest4 cfg o w a n) cfg.band_8).1 = 0 →
      nv12_together cfg o w a n =
        ⟨(nv12_D cfg o w a n).n, (nv12_D cfg o w a n).area, none,
          togTrace cfg o w a n ++ [Gen.D]⟩) ∧
    ((tableGo o w a n packings.length packings (togBest4 cfg o w a n) cfg.band_8).1 ≠ 0 →
      ∀ rest2, (tableGo o w a n packings.length packings (togBest4 cfg o w a n)
          cfg.band_8).2.2 = some rest2 →
        nv12_together cfg o w a n =
          ⟨(tableGo o w a n packings.length packings (togBest4 cfg o w a n) cfg.band_8).1,
            (tableGo o w a n packings.length packings (togBest4 cfg o w a n) cfg.band_8).2.1,
            some ((chunkPairs rest2).take
              (tableGo o w a n packings.length packings (togBest4 cfg o w a n) cfg.band_8).1),
            togTrace cfg o w a n⟩) ∧
    ((tableGo o w a n packings.length packings (togBest4 cfg o w a n) cfg.band_8).1 ≠ 0 →
      (tableGo o w a n packings.length packings (togBest4 cfg o w a n)
          cfg.band_8).2.2 = none →
        nv12_together cfg o w a n =
          ⟨(tableGo o w a n packings.length packings (togBest4 cfg o w a n) cfg.band_8).1,
            (tableGo o w a n packings.length packings (togBest4 cfg o w a n) cfg.band_8).2.1,
            some ((togPick4 cfg o w a n).take
              (tableGo o w a n packings.length packings (togBest4 cfg o w a n) cfg.band_8).1),
            togTrace cfg o w a n⟩) := by
  refine ⟨?_, ?_, ?_⟩
  · intro h
    unfold nv12_together
    simp only [h, ite_true]
  · intro h rest2 hm
    unfold nv12_together
    simp only [h, ite_false, hm, if_false]
  · intro h hm
    unfold nv12_together
    simp only [h, ite_false, hm, if_false]

/-- C5 (amended): `nv12_together` consults the generators in the fixed
order A, reverse-A, B, C — `Gen.D` last — skipping the remaining
generators as soon as the incumbent count reaches the full request `n`;
a later generator replaces the incumbent only on a strictly greater
count (ties keep the earlier generator, witnessed by the incumbent
packing when no later generator strictly improves on A); `nv12_D` is
consulted exactly when the post-table count is zero, and then the
returned count is D's result with no packing copied out (zero pairs
and no packing when nothing at all fits).  Unlike the generators, a
satisfactory special-case TABLE entry replaces the incumbent also on a
tie (see the counterexample). -/
theorem nv12_together_selection (cfg : Cfg) (o w a n : Nat) (hn : 1 ≤ n) :
    ((nv12_together cfg o w a n).trace.Sublist [Gen.A, Gen.rA, Gen.B, Gen.C, Gen.D] ∧
      (nv12_together cfg o w a n).trace.head? = some Gen.A) ∧
    ((nv12_A cfg o w a n).n = n → (nv12_together cfg o w a n).trace = [Gen.A]) ∧
    (Gen.rA ∈ (nv12_together cfg o w a n).trace ↔ (nv12_A cfg o w a n).n < n) ∧
    (Gen.B ∈ (nv12_together cfg o w a n).trace ↔ togBest2 cfg o w a n < n) ∧
    (Gen.C ∈ (nv12_together cfg o w a n).trace ↔ togBest3 cfg o w a n < n) ∧
    (Gen.D ∈ (nv12_together cfg o w a n).trace ↔
      (tableGo o w a n packings.length packings (togBest4 cfg o w a n) cfg.band_8).1 = 0) ∧
    ((tableGo o w a n packings.length packings (togBest4 cfg o w a n) cfg.band_8).1 = 0 →
      (nv12_together cfg o w a n).n = (nv12_D cfg o w a n).n ∧
      (nv12_together cfg o w a n).packing = none ∧
      (nv12_together cfg o w a n).area = (nv12_D cfg o w a n).area) ∧
    ((tableGo o w a n packings.length packings (togBest4 cfg o w a n) cfg.band_8).1 ≠ 0 →
      (nv12_together cfg o w a n).n =
        (tableGo o w a n packings.length packings (togBest4 cfg o w a n) cfg.band_8).1 ∧
      (nv12_together cfg o w a n).area =
        (tableGo o w a n packings.length packings (togBest4 cfg o w a n) cfg.band_8).2.1) ∧
    ((tableGo o w a n packings.length packings (togBest4 cfg o w a n) cfg.band_8).2.2 =
        none →
      (tableGo o w a n packings.length packings (togBest4 cfg o w a n) cfg.band_8).1 =
        togBest4 cfg o w a n) ∧
    ((tableGo o w a n packings.length packings (togBest4 cfg o w a n) cfg.band_8).2.2 =
        none →
      (tableGo o w a n packings.length packings (togBest4 cfg o w a n) cfg.band_8).1 ≠ 0 →
      (nv12_revA cfg o w a n).n ≤ (nv12_A cfg o w a n).n →
      (nv12_B cfg o w a n).n ≤ (nv12_A cfg o w a n).n →
      (nv12_C cfg o w a n).n ≤ (nv12_A cfg o w a n).n →
      (nv12_together cfg o w a n).packing =
        some ((nv12_A cfg o w a n).pairs.take
          (tableGo o w a n packings.length packings (togBest4 cfg o w a n) cfg.band_8).1) ∧
      (nv12_together cfg o w a n).n = (nv12_A cfg o w a n).n) := by
  have htr := tog_trace_eq cfg o w a n
  have hres := tog_result_eq cfg o w a n
  refine ⟨?_, ?_, ?_, ?_, ?_, ?_, ?_, ?_, ?_, ?_⟩
  · by_cases c1 : (nv12_A cfg o w a n).n < n <;>
    by_cases c2 : togBest2 cfg o w a n < n <;>
    by_cases c3 : togBest3 cfg o w a n < n <;>
    by_cases d : (tableGo o w a n packings.length packings (togBest4 cfg o w a n)
        cfg.band_8).1 = 0 <;>
      (rw [htr]; simp [togTrace, c1, c2, c3, d])
  · intro hA
    have c1 : ¬ (nv12_A cfg o w a n).n < n := by omega
    have hb2 : togBest2 cfg o w a n = n := by unfold togBest2; rw [if_neg c1, hA]
    have c2 : ¬ togBest2 cfg o w a n < n := by omega
    have hb3 : togBest3 cfg o w a n = n := by unfold togBest3; rw [if_neg c2, hb2]
    have c3 : ¬ togBest3 cfg o w a n < n := by omega
    have hb4 : togBest4 cfg o w a n = n := by unfold togBest4; rw [if_neg c3, hb3]
    have hd : ¬ (tableGo o w a n packings.length packings (togBest4 cfg o w a n)
        cfg.band_8).1 = 0 := by
      rcases tableGo_cases o w a n packings.length packings (togBest4 cfg o w a n)
          cfg.band_8 with hL | ⟨x, ar, rest2, hx, hR⟩
      · rw [hL]; simp; omega
      · rw [hR]; simp; omega
    rw [htr]
    simp [togTrace, c1, c2, c3, hd]
  · by_cases c1 : (nv12_A cfg o w a n).n < n <;>
    by_cases c2 : togBest2 cfg o w a n < n <;>
    by_cases c3 : togBest3 cfg o w a n < n <;>
    by_cases d : (tableGo o w a n packings.length packings (togBest4 cfg o w a n)
        cfg.band_8).1 = 0 <;>
      (rw [htr]; simp [togTrace, c1, c2, c3, d])
  · by_cases c1 : (nv12_A cfg o w a n).n < n <;>
    by_cases c2 : togBest2 cfg o w a n < n <;>
    by_cases c3 : togBest3 cfg o w a n < n <;>
    by_cases d : (tableGo o w a n packings.length packings (togBest4 cfg o w a n)
        cfg.band_8).1 = 0 <;>
      (rw [htr]; simp [togTrace, c1, c2, c3, d])
  · by_cases c1 : (nv12_A cfg o w a n).n < n <;>
    by_cases c2 : togBest2 cfg o w a n < n <;>
    by_cases c3 : togBest3 cfg o w a n < n <;>
    by_cases d : (tableGo o w a n packings.length packings (togBest4 cfg o w a n)
        cfg.band_8).1 = 0 <;>
      (rw [htr]; simp [togTrace, c1, c2, c3, d])
  · by_cases c1 : (nv12_A cfg o w a n).n < n <;>
    by_cases c2 : togBest2 cfg o w a n < n <;>
    by_cases c3 : togBest3 cfg o w a n < n <;>
    by_cases d : (tableGo o w a n packings.length packings (togBest4 cfg o w a n)
        cfg.band_8).1 = 0 <;>
      (rw [htr]; simp [togTrace, c1, c2, c3, d])
  · intro h
    rw [hres.1 h]
    exact ⟨rfl, rfl, rfl⟩
  · intro h
    rcases hm : (tableGo o w a n packings.length packings (togBest4 cfg o w a n)
        cfg.band_8).2.2 with _ | rest2
    · rw [hres.2.2 h hm]
      exact ⟨rfl, rfl⟩
    · rw [hres.2.1 h rest2 hm]
      exact ⟨rfl, rfl⟩
  · intro hm
    rcases tableGo_cases o w a n packings.length packings (togBest4 cfg o w a n)
        cfg.band_8 with hL | ⟨x, ar, rest2, hx, hR⟩
    · rw [hL]
    · rw [hR] at hm
      simp at hm
  · intro hm h hR hB hC
    have hb2 : togBest2 cfg o w a n = (nv12_A cfg o w a n).n := by
      unfold togBest2
      by_cases c1 : (nv12_A cfg o w a n).n < n <;>
        simp [c1, Nat.not_lt.mpr hR]
    have hp2 : togPick2 cfg o w a n = (nv12_A cfg o w a n).pairs := by
      unfold togPick2
      by_cases c1 : (nv12_A cfg o w a n).n < n <;>
        simp [c1, Nat.not_lt.mpr hR]
    have hb3 : togBest3 cfg o w a n = (nv12_A cfg o w a n).n := by
      unfold togBest3
      rw [hb2]
      by_cases c2 : (nv12_A cfg o w a n).n < n <;>
        simp [c2, Nat.not_lt.mpr hB]
    have hp3 : togPick3 cfg o w a n = (nv12_A cfg o w a n).pairs := by
      unfold togPick3
      rw [hb2, hp2]
      by_cases c2 : (nv12_A cfg o w a n).n < n <;>
        simp [c2, Nat.not_lt.mpr hB]
    have hb4 : togBest4 cfg o w a n = (nv12_A cfg o w a n).n := by
      unfold togBest4
      rw [hb3]
      by_cases c3 : (nv12_A cfg o w a n).n < n <;>
        simp [c3, Nat.not_lt.mpr hC]
    have hp4 : togPick4 cfg o w a n = (nv12_A cfg o w a n).pairs := by
      unfold togPick4
      rw [hb3, hp3]
      by_cases c3 : (nv12_A cfg o w a n).n < n <;>
        simp [c3, Nat.not_lt.mpr hC]
    have ht1 : (tableGo o w a n packings.length packings (togBest4 cfg o w a n)
        cfg.band_8).1 = togBest4 cfg o w a n := by
      rcases tableGo_cases o w a n packings.length packings (togBest4 cfg o w a n)
          cfg.band_8 with hL | ⟨x, ar, rest2, hx, hRr⟩
      · rw [hL]
      · rw [hRr] at hm
        simp at hm
    rw [hres.2.2 h hm, hp4]
    exact ⟨rfl, by rw [ht1, hb4]⟩

/-- Witness for C5 at `(o, w, a, n) = (2, 4, 4, 6)`: generator A
reaches the full count, so reverse-A, B, C and D are all skipped. -/
theorem nv12_together_selection_witness :
    (nv12_together cfgOmap 2 4 4 6).trace = [Gen.A] :=
  (nv12_together_selection cfgOmap 2 4 4 6 (by decide)).2.1 (by decide)

/-- C5 counterexample (the tie-break part of the claim as stated): at
`(o, w, a, n) = (2, 4, 4, 6)` generator A already places the full 6
pairs, yet the special-case table entry — an equal-count later
candidate — replaces it: the returned packing is the table's, whose
sixth pair differs from A's, so ties do NOT go to the earlier
candidate. -/
theorem nv12_together_tie_cex :
    (nv12_A cfgOmap 2 4 4 6).n = 6 ∧
    (nv12_A cfgOmap 2 4 4 6).pairs =
      [(2, 33), (6, 35), (10, 37), (14, 39), (18, 41), (22, 43)] ∧
    (nv12_together cfgOmap 2 4 4 6).n = 6 ∧
    (nv12_together cfgOmap 2 4 4 6).packing =
      some [(2, 33), (6, 35), (10, 37), (14, 39), (18, 41), (46, 23)] ∧
    (nv12_together cfgOmap 2 4 4 6).packing ≠
      some ((nv12_A cfgOmap 2 4 4 6).pairs.take 6) := by
  decide

/-! ## Containment of the pattern generators -/

theorem nv12A_inner_contained (o w a area u n x0 : Nat) (hw : 0 < w) (ha : 0 < a)
    (hx0 : x0 < area) (hu : u = (area + x0) / 2) :
    ∀ fuel x l m acc,
      ((x = x0 ∧ l = u) ∨ (∃ xp, x0 ≤ xp ∧ xp + w ≤ u ∧ xp + w ≤ x ∧
        2 * l ≤ area + xp + w + 1)) →
      (∀ p ∈ acc, contained w area p) →
      ∀ p ∈ (nv12A_inner o w a area u n fuel x l m acc).2.2.2, contained w area p := by
  intro fuel
  induction fuel with
  | zero => intro x l m acc _ hacc; exact hacc
  | succ fuel ih =>
    intro x l m acc hstate hacc
    by_cases hg : x + w ≤ u ∧ m < n
    · have hstep : nv12A_inner o w a area u n (fuel + 1) x l m acc =
          nv12A_inner o w a area u n fuel (ALIGN (x + w - o) a + o)
            ((area + x + w + 1) / 2) (m + 1) (acc ++ [(x % 256, l % 256)]) := by
        simp only [nv12A_inner]
        rw [if_pos hg]
      rw [hstep]
      have hxw : x + w ≤ ALIGN (x + w - o) a + o := by
        have h1 := le_ALIGN (x + w - o) a ha
        omega
      have hpair : contained w area (x % 256, l % 256) := by
        have hx256 := Nat.mod_le x 256
        have hl256 := Nat.mod_le l 256
        rcases hstate with ⟨hx, hl⟩ | ⟨xp, hxp0, hxpu, hxpx, hl2⟩
        · constructor <;> (simp only [contained]; omega)
        · constructor <;> (simp only [contained]; omega)
      refine ih (ALIGN (x + w - o) a + o) ((area + x + w + 1) / 2) (m + 1)
        (acc ++ [(x % 256, l % 256)]) ?_ ?_
      · right
        refine ⟨x, ?_, by omega, hxw, by omega⟩
        rcases hstate with ⟨hx, _⟩ | ⟨xp, hxp0, _, hxpx, _⟩ <;> omega
      · intro p hp
        rcases List.mem_append.mp hp with h | h
        · exact hacc p h
        · rcases List.mem_singleton.mp h with rfl
          exact hpair
    · have hstep : nv12A_inner o w a area u n (fuel + 1) x l m acc = (x, l, m, acc) := by
        simp only [nv12A_inner]
        rw [if_neg hg]
      rw [hstep]
      exact hacc

theorem nv12A_outer_contained (o w a area n : Nat) (hw : 0 < w) (ha : 0 < a) :
    ∀ fuel x m acc, (∀ p ∈ acc, contained w area p) →
      ∀ p ∈ (nv12A_outer o w a area n fuel x m acc).2, contained w area p := by
  intro fuel
  induction fuel with
  | zero => intro x m acc hacc; exact hacc
  | succ fuel ih =>
    intro x m acc hacc
    by_cases hg : x + w < area ∧ m < n
    · have hstep : nv12A_outer o w a area n (fuel + 1) x m acc =
          nv12A_outer o w a area n fuel
            (ALIGN ((nv12A_inner o w a area ((area + x) / 2) n n x ((area + x) / 2) m
              acc).2.1 - o) a + o)
            (nv12A_inner o w a area ((area + x) / 2) n n x ((area + x) / 2) m acc).2.2.1
            (nv12A_inner o w a area ((area + x) / 2) n n x ((area + x) / 2) m
              acc).2.2.2 := by
        simp only [nv12A_outer]
        rw [if_pos hg]
      rw [hstep]
      exact ih _ _ _ (nv12A_inner_contained o w a area ((area + x) / 2) n x hw ha
        (by omega) rfl n x ((area + x) / 2) m acc (Or.inl ⟨rfl, rfl⟩) hacc)
    · have hstep : nv12A_outer o w a area n (fuel + 1) x m acc = (m, acc) := by
        simp only [nv12A_outer]
        rw [if_neg hg]
      rw [hstep]
      exact hacc

theorem u8_natCast (k : Nat) : u8 (k : Int) = k % 256 := by
  unfold u8
  have h : (k : Int).emod 256 = (k : Int) % 256 := rfl
  rw [h]
  omega

theorem nv12_A_contained (cfg : Cfg) (o w a n : Nat) (hw : 0 < w) (ha : 0 < a) :
    ∀ p ∈ (nv12_A cfg o w a n).pairs, contained w (nv12_A cfg o w a n).area p := by
  intro p hp
  exact nv12A_outer_contained o w a cfg.band_8 n hw ha (cfg.band_8 + n + 2) o 0 []
    (by intro q hq; cases hq) p hp

theorem nv12_revA_contained (cfg : Cfg) (o w a n : Nat) (hw : 0 < w) (ha : 0 < a) :
    ∀ p ∈ (nv12_revA cfg o w a n).pairs, contained w (nv12_revA cfg o w a n).area p := by
  intro p hp
  have hpairs : (nv12_revA cfg o w a n).pairs =
      (nv12_A cfg ((a - (o + w) % a) % a) w a n).pairs.map
        (fun q => (u8 (((nv12_A cfg ((a - (o + w) % a) % a) w a n).area : Int) - q.1 - w),
          u8 (((nv12_A cfg ((a - (o + w) % a) % a) w a n).area : Int) - q.2 -
            ((w + 1) / 2)))) := rfl
  have harea : (nv12_revA cfg o w a n).area =
      (nv12_A cfg ((a - (o + w) % a) % a) w a n).area := rfl
  rw [hpairs] at hp
  rw [harea]
  rcases List.mem_map.mp hp with ⟨q, hq, rfl⟩
  obtain ⟨h1, h2⟩ := nv12_A_contained cfg ((a - (o + w) % a) % a) w a n hw ha q hq
  unfold contained
  refine ⟨?_, ?_⟩ <;> dsimp only
  · have hv : (((nv12_A cfg ((a - (o + w) % a) % a) w a n).area : Int) - q.1 - w) =
        (((nv12_A cfg ((a - (o + w) % a) % a) w a n).area - q.1 - w : Nat) : Int) := by
      omega
    rw [hv, u8_natCast]
    have := Nat.mod_le ((nv12_A cfg ((a - (o + w) % a) % a) w a n).area - q.1 - w) 256
    omega
  · have hcast : (((w : Int) + 1) / 2) = (((w + 1) / 2 : Nat) : Int) := by omega
    have hv : (((nv12_A cfg ((a - (o + w) % a) % a) w a n).area : Int) - q.2 -
        (((w : Int) + 1) / 2)) =
        (((nv12_A cfg ((a - (o + w) % a) % a) w a n).area - q.2 - ((w + 1) / 2) : Nat) :
          Int) := by
      omega
    rw [hv, u8_natCast]
    have := Nat.mod_le
      ((nv12_A cfg ((a - (o + w) % a) % a) w a n).area - q.2 - ((w + 1) / 2)) 256
    omega

theorem nv12B_go_contained (w a area n : Nat) (hw : 0 < w) :
    ∀ fuel o m acc, (∀ p ∈ acc, contained w area p) →
      ∀ p ∈ (nv12B_go w a area n fuel o m acc).2, contained w area p := by
  intro fuel
  induction fuel with
  | zero => intro o m acc hacc; exact hacc
  | succ fuel ih =>
    intro o m acc hacc
    by_cases hg : o + w ≤ area ∧ m < n
    · have hstep : nv12B_go w a area n (fuel + 1) o m acc =
          nv12B_go w a area n fuel (o + a) (m + 1) (acc ++ [(o % 256, o / 2 % 256)]) := by
        simp only [nv12B_go]
        rw [if_pos hg]
      rw [hstep]
      refine ih (o + a) (m + 1) _ ?_
      intro p hp
      rcases List.mem_append.mp hp with h | h
      · exact hacc p h
      · rcases List.mem_singleton.mp h with rfl
        have h1 := Nat.mod_le o 256
        have h2 := Nat.mod_le (o / 2) 256
        unfold contained
        refine ⟨?_, ?_⟩ <;> dsimp only <;> omega
    · have hstep : nv12B_go w a area n (fuel + 1) o m acc = (m, acc) := by
        simp only [nv12B_go]
        rw [if_neg hg]
      rw [hstep]
      exact hacc

theorem nv12_B_contained (cfg : Cfg) (o w a n : Nat) (hw : 0 < w) :
    ∀ p ∈ (nv12_B cfg o w a n).pairs, contained w (nv12_B cfg o w a n).area p := by
  unfold nv12_B
  by_cases hc : w < a ∧ o < (o + w) % a ∧ (o + w + 1) / 2 % a ≤ o ∧
      ((o + w + 1) / 2 % a + a / 4 ≤ o ∨ (o + w) % a ≤ o / 2 % a + a / 4)
  · rw [if_pos hc]
    intro p hp
    exact nv12B_go_contained w a cfg.band_8 n hw n o 0 [] (by intro q hq; cases hq) p hp
  · rw [if_neg hc]
    intro p hp
    cases hp

theorem nv12D_go_contained (o w a area w1 b8 b16 n : Nat) (hw : 0 < w)
    (hw1 : w1 = (w + 1) / 2) :
    ∀ fuel d, ∀ p ∈ (nv12D_go o w a area w1 b8 b16 n fuel d).2, contained w area p := by
  intro fuel
  induction fuel with
  | zero => intro d p hp; cases hp
  | succ fuel ih =>
    intro d p hp
    by_cases hg : 0 < n ∧ d + o + w ≤ area
    · rw [show nv12D_go o w a area w1 b8 b16 n (fuel + 1) d =
          (if (o + d) % b8 / 2 + w1 ≤ o + d then
            ((1 : Nat), [((o + d) % 256, (o + d) % b8 / 2 % 256)])
          else if (o + d) % b8 / 2 + ALIGN (d + o + w - (o + d) % b8 / 2) b16 + w1 ≤ area then
            ((1 : Nat), [(o % 256, ((o + d) % b8 / 2 + ALIGN (d + o + w - (o + d) % b8 / 2) b16) % 256)])
          else nv12D_go o w a area w1 b8 b16 n fuel (d + a)) from by
        simp only [nv12D_go]; rw [if_pos hg]] at hp
      by_cases h1 : (o + d) % b8 / 2 + w1 ≤ o + d
      · rw [if_pos h1] at hp
        rcases List.mem_singleton.mp hp with rfl
        have ha1 := Nat.mod_le (o + d) 256
        have ha2 := Nat.mod_le ((o + d) % b8 / 2) 256
        unfold contained
        refine ⟨?_, ?_⟩ <;> dsimp only <;> omega
      · rw [if_neg h1] at hp
        by_cases h2 : (o + d) % b8 / 2 + ALIGN (d + o + w - (o + d) % b8 / 2) b16 + w1 ≤ area
        · rw [if_pos h2] at hp
          rcases List.mem_singleton.mp hp with rfl
          have ha1 := Nat.mod_le o 256
          have ha2 := Nat.mod_le
            ((o + d) % b8 / 2 + ALIGN (d + o + w - (o + d) % b8 / 2) b16) 256
          unfold contained
          refine ⟨?_, ?_⟩ <;> dsimp only <;> omega
        · rw [if_neg h2] at hp
          exact ih (d + a) p hp
    · rw [show nv12D_go o w a area w1 b8 b16 n (fuel + 1) d = ((0 : Nat), ([] : List (Nat × Nat))) from by
        simp only [nv12D_go]; rw [if_neg hg]] at hp
      cases hp

theorem nv12_D_contained (cfg : Cfg) (o w a n : Nat) (hw : 0 < w) :
    ∀ p ∈ (nv12_D cfg o w a n).pairs, contained w (nv12_D cfg o w a n).area p := by
  intro p hp
  exact nv12D_go_contained o w a (ALIGN (o + w) cfg.band_8) ((w + 1) / 2) cfg.band_8
    cfg.band_16 n hw rfl (ALIGN (o + w) cfg.band_8 + 1) 0 p hp

/-- C6 (amended): under the valid-input assumptions (`w > 0`, `o < a`,
`2 ≤ a`), every pair placed by `nv12_A`, `nv12_revA`, `nv12_B` or
`nv12_D` is contained in the area the generator reports: the 8-bit
offset plus `w` and the 16-bit offset plus `(w+1)/2` are at most the
area size.  The claim as stated — for EVERY generator — fails for
`nv12_C`, whose analytic count formula truncates toward zero and can
admit one spurious block (see the counterexample). -/
theorem nv12_generators_containment (cfg : Cfg) (o w a n : Nat)
    (hw : 0 < w) (ho : o < a) (ha : 2 ≤ a) :
    (∀ p ∈ (nv12_A cfg o w a n).pairs, contained w (nv12_A cfg o w a n).area p) ∧
    (∀ p ∈ (nv12_revA cfg o w a n).pairs, contained w (nv12_revA cfg o w a n).area p) ∧
    (∀ p ∈ (nv12_B cfg o w a n).pairs, contained w (nv12_B cfg o w a n).area p) ∧
    (∀ p ∈ (nv12_D cfg o w a n).pairs, contained w (nv12_D cfg o w a n).area p) :=
  ⟨nv12_A_contained cfg o w a n hw (by omega),
   nv12_revA_contained cfg o w a n hw (by omega),
   nv12_B_contained cfg o w a n hw,
   nv12_D_contained cfg o w a n hw⟩

/-- Witness for C6 (amended) at `(o, w, a, n) = (2, 4, 4, 9)`. -/
theorem nv12_generators_containment_witness :
    (∀ p ∈ (nv12_A cfgOmap 2 4 4 9).pairs, contained 4 (nv12_A cfgOmap 2 4 4 9).area p) ∧
    (∀ p ∈ (nv12_revA cfgOmap 2 4 4 9).pairs,
      contained 4 (nv12_revA cfgOmap 2 4 4 9).area p) ∧
    (∀ p ∈ (nv12_B cfgOmap 2 4 4 9).pairs, contained 4 (nv12_B cfgOmap 2 4 4 9).area p) ∧
    (∀ p ∈ (nv12_D cfgOmap 2 4 4 9).pairs, contained 4 (nv12_D cfgOmap 2 4 4 9).area p) :=
  nv12_generators_containment cfgOmap 2 4 4 9 (by decide) (by decide) (by decide)

/-- C6 counterexample: at the valid input `(o, w, a, n) = (63, 2, 64,
1)`, `nv12_C` places the pair `(63, 63)` in a 64-slot area: the 8-bit
block ends at 65 > 64, violating containment (and the returned count 2
even exceeds the request `n = 1`). -/
theorem nv12_C_containment_cex :
    (nv12_C cfgOmap 63 2 64 1).area = 64 ∧
    (nv12_C cfgOmap 63 2 64 1).pairs = [(63, 63)] ∧
    (nv12_C cfgOmap 63 2 64 1).n = 2 ∧
    ¬ contained 2 64 (63, 63) ∧
    0 < 2 ∧ 63 < 64 ∧ 2 ≤ 64 := by
  decide

/-! ## The separate-path commit of `reserve_nv12` -/

/-- C1: for every behavior of the external allocator, the separate-path
commit (a) makes the 16-bit `lay_2d` call exactly when the 8-bit call
succeeded; (b) on an 8-bit failure releases everything the failed call
left in the temporary list and merges nothing; (c) on a 16-bit failure
or a count mismatch releases every area laid during the attempt and
merges nothing; (d) merges the laid areas into the group's permanent
list exactly when both calls succeed with equal counts — so no
8-bit-only orphan ever remains. -/
theorem sep_commit_rollback {σ : Type} (ops : AllocOps σ) (s : σ) (n_s w h band a o : Nat) :
    ∀ r1 : Int × List Nat × σ, r1 = ops.lay_2d TILFMT_8BIT n_s w h band a o s →
    ∀ r2 : Int × List Nat × σ,
      r2 = ops.lay_2d TILFMT_16BIT n_s ((w + 1) / 2) h (band / 2) (a / 2) (o / 2) r1.2.2 →
      ((sep_commit ops s n_s w h band a o).calls =
        if r1.1 < 0 then [(TILFMT_8BIT, n_s)]
        else [(TILFMT_8BIT, n_s), (TILFMT_16BIT, n_s)]) ∧
      (r1.1 < 0 →
        (sep_commit ops s n_s w h band a o).res = -1 ∧
        (sep_commit ops s n_s w h band a o).released = r1.2.1 ∧
        (sep_commit ops s n_s w h band a o).merged = []) ∧
      (0 ≤ r1.1 → (r2.1 < 0 ∨ r1.1 ≠ r2.1) →
        (sep_commit ops s n_s w h band a o).res = -1 ∧
        (sep_commit ops s n_s w h band a o).released = r1.2.1 ++ r2.2.1 ∧
        (sep_commit ops s n_s w h band a o).merged = []) ∧
      (0 ≤ r1.1 → 0 ≤ r2.1 → r1.1 = r2.1 →
        (sep_commit ops s n_s w h band a o).res = r1.1 ∧
        (sep_commit ops s n_s w h band a o).merged = r1.2.1 ++ r2.2.1 ∧
        (sep_commit ops s n_s w h band a o).released = []) := by
  intro r1 hr1 r2 hr2
  subst hr1
  subst hr2
  by_cases h1 : (ops.lay_2d TILFMT_8BIT n_s w h band a o s).1 < 0
  · have hs : sep_commit ops s n_s w h band a o =
        ⟨-1, (ops.lay_2d TILFMT_8BIT n_s w h band a o s).2.1, [], [(TILFMT_8BIT, n_s)],
          (ops.lay_2d TILFMT_8BIT n_s w h band a o s).2.2⟩ := by
      unfold sep_commit
      rw [if_pos h1]
    rw [hs, if_pos h1]
    exact ⟨rfl, fun _ => ⟨rfl, rfl, rfl⟩, fun hge _ => absurd hge (by omega),
      fun hge _ _ => absurd hge (by omega)⟩
  · by_cases h2 : (ops.lay_2d TILFMT_16BIT n_s ((w + 1) / 2) h (band / 2) (a / 2) (o / 2)
        (ops.lay_2d TILFMT_8BIT n_s w h band a o s).2.2).1 < 0 ∨
        (ops.lay_2d TILFMT_8BIT n_s w h band a o s).1 ≠
          (ops.lay_2d TILFMT_16BIT n_s ((w + 1) / 2) h (band / 2) (a / 2) (o / 2)
            (ops.lay_2d TILFMT_8BIT n_s w h band a o s).2.2).1
    · have hs : sep_commit ops s n_s w h band a o =
          ⟨-1, (ops.lay_2d TILFMT_8BIT n_s w h band a o s).2.1 ++
              (ops.lay_2d TILFMT_16BIT n_s ((w + 1) / 2) h (band / 2) (a / 2) (o / 2)
                (ops.lay_2d TILFMT_8BIT n_s w h band a o s).2.2).2.1, [],
            [(TILFMT_8BIT, n_s), (TILFMT_16BIT, n_s)],
            (ops.lay_2d TILFMT_16BIT n_s ((w + 1) / 2) h (band / 2) (a / 2) (o / 2)
              (ops.lay_2d TILFMT_8BIT n_s w h band a o s).2.2).2.2⟩ := by
        unfold sep_commit
        rw [if_neg h1, if_pos h2]
      rw [hs, if_neg h1]
      refine ⟨rfl, fun hlt => absurd hlt h1, fun _ _ => ⟨rfl, rfl, rfl⟩, ?_⟩
      intro _ hge2 heq
      rcases h2 with h2 | h2
      · exact absurd hge2 (by omega)
      · exact absurd heq h2
    · have hs : sep_commit ops s n_s w h band a o =
          ⟨(ops.lay_2d TILFMT_8BIT n_s w h band a o s).1, [],
            (ops.lay_2d TILFMT_8BIT n_s w h band a o s).2.1 ++
              (ops.lay_2d TILFMT_16BIT n_s ((w + 1) / 2) h (band / 2) (a / 2) (o / 2)
                (ops.lay_2d TILFMT_8BIT n_s w h band a o s).2.2).2.1,
            [(TILFMT_8BIT, n_s), (TILFMT_16BIT, n_s)],
            (ops.lay_2d TILFMT_16BIT n_s ((w + 1) / 2) h (band / 2) (a / 2) (o / 2)
              (ops.lay_2d TILFMT_8BIT n_s w h band a o s).2.2).2.2⟩ := by
        unfold sep_commit
        rw [if_neg h1, if_neg h2]
      rw [hs, if_neg h1]
      exact ⟨rfl, fun hlt => absurd hlt h1,
        fun _ hor => absurd hor h2, fun _ _ _ => ⟨rfl, rfl, rfl⟩⟩

/-- Witness for C1 with the `echoOps` oracle (both calls succeed with
count 2): the attempt commits, merging both areas and releasing
nothing. -/
theorem sep_commit_rollback_witness :
    (sep_commit echoOps () 2 4 1 64 2 0).res = 2 ∧
    (sep_commit echoOps () 2 4 1 64 2 0).merged = [1, 2] ∧
    (sep_commit echoOps () 2 4 1 64 2 0).released = [] := by
  have h := sep_commit_rollback echoOps () 2 4 1 64 2 0 _ rfl _ rfl
  exact h.2.2.2 (by decide) (by decide) (by decide)

/-! ## Termination of the orchestration loops -/

/-- A separate-path commit attempt never reports zero when the
allocator itself never reports zero. -/
theorem sep_commit_res_ne {σ : Type} (ops : AllocOps σ) (s : σ) (ns w h band a o : Nat)
    (h2d : ∀ fmt m w' h' band' al' offs' s', (ops.lay_2d fmt m w' h' band' al' offs' s').1 ≠ 0) :
    (sep_commit ops s ns w h band a o).res ≠ 0 := by
  unfold sep_commit
  by_cases h1 : (ops.lay_2d TILFMT_8BIT ns w h band a o s).1 < 0
  · rw [if_pos h1]
    dsimp only
    decide
  · rw [if_neg h1]
    by_cases h2 : (ops.lay_2d TILFMT_16BIT ns ((w + 1) / 2) h (band / 2) (a / 2) (o / 2)
        (ops.lay_2d TILFMT_8BIT ns w h band a o s).2.2).1 < 0 ∨
        (ops.lay_2d TILFMT_8BIT ns w h band a o s).1 ≠
          (ops.lay_2d TILFMT_16BIT ns ((w + 1) / 2) h (band / 2) (a / 2) (o / 2)
            (ops.lay_2d TILFMT_8BIT ns w h band a o s).2.2).1
    · rw [if_pos h2]
      dsimp only
      decide
    · rw [if_neg h2]
      exact h2d TILFMT_8BIT ns w h band a o s

/-- One `reserve_nv12` loop iteration either fails (negative) or
commits at least one block, and only appends to the permanent list,
provided the allocator never reports a zero-block success. -/
theorem nv12Body_progress {σ : Type} (cfg : Cfg) (ops : AllocOps σ) (ct : Bool)
    (w h band a o n i : Nat) (s : σ) (perm : List Nat)
    (h2d : ∀ fmt m w' h' band' al' offs' s', (ops.lay_2d fmt m w' h' band' al' offs' s').1 ≠ 0)
    (hnv : ∀ m ar w' h' p s', (ops.lay_nv12 m ar w' h' p s').1 ≠ 0) :
    (nv12Body cfg ops ct w h band a o n i s perm).1 ≠ 0 ∧
    ∃ ext, (nv12Body cfg ops ct w h band a o n i s perm).2.2 = perm ++ ext := by
  cases ct with
  | false =>
    simp only [nv12Body, Bool.false_eq_true, not_false_eq_true, true_or, if_true,
      ite_true, ite_false, ne_eq]
    split
    · rename_i hcontra
      exact absurd hcontra (by simp)
    · exact ⟨sep_commit_res_ne ops s _ w h band a o h2d, _, rfl⟩
  | true =>
    simp only [nv12Body, eq_self_iff_true, if_true, ite_true, not_true, false_or,
      true_and, ne_eq]
    split
    · split
      · exact ⟨hnv _ _ _ _ _ _, _, rfl⟩
      · exact ⟨sep_commit_res_ne ops s _ w h band a o h2d, _, rfl⟩
    · split
      · exact ⟨hnv _ _ _ _ _ _, [], (List.append_nil perm).symm⟩
      · exact ⟨by dsimp only; decide, [], (List.append_nil perm).symm⟩

/-- Termination of the `reserve_nv12` loop under nonzero-progress
oracles: any fuel exceeding the outstanding count suffices, and the
permanent list only grows. -/
theorem nv12Loop_total {σ : Type} (cfg : Cfg) (ops : AllocOps σ) (ct : Bool)
    (w h band a o n : Nat)
    (h2d : ∀ fmt m w' h' band' al' offs' s', (ops.lay_2d fmt m w' h' band' al' offs' s').1 ≠ 0)
    (hnv : ∀ m ar w' h' p s', (ops.lay_nv12 m ar w' h' p s').1 ≠ 0) :
    ∀ fuel i res s perm, n - i < fuel →
      ∃ out, nv12Loop cfg ops ct w h band a o n fuel i res s perm = some out ∧
        ∃ ext, out.2.2 = perm ++ ext := by
  intro fuel
  induction fuel with
  | zero => intro i res s perm hf; omega
  | succ fuel ih =>
    intro i res s perm hf
    by_cases hg : i < n ∧ 0 ≤ res
    · have hstep : nv12Loop cfg ops ct w h band a o n (fuel + 1) i res s perm =
          nv12Loop cfg ops ct w h band a o n fuel
            ((i : Int) + (nv12Body cfg ops ct w h band a o n i s perm).1).toNat
            (nv12Body cfg ops ct w h band a o n i s perm).1
            (nv12Body cfg ops ct w h band a o n i s perm).2.1
            (nv12Body cfg ops ct w h band a o n i s perm).2.2 := by
        simp only [nv12Loop]
        rw [if_pos hg]
      obtain ⟨hne, ext1, hext1⟩ :=
        nv12Body_progress cfg ops ct w h band a o n i s perm h2d hnv
      by_cases hpos : 0 ≤ (nv12Body cfg ops ct w h band a o n i s perm).1
      · have hi' : i + 1 ≤ ((i : Int) + (nv12Body cfg ops ct w h band a o n i s perm).1).toNat := by
          omega
        obtain ⟨out, hout, ext2, hext2⟩ := ih
          ((i : Int) + (nv12Body cfg ops ct w h band a o n i s perm).1).toNat
          (nv12Body cfg ops ct w h band a o n i s perm).1
          (nv12Body cfg ops ct w h band a o n i s perm).2.1
          (nv12Body cfg ops ct w h band a o n i s perm).2.2 (by omega)
        refine ⟨out, by rw [hstep]; exact hout, ext1 ++ ext2, ?_⟩
        rw [hext2, hext1, List.append_assoc]
      · obtain ⟨f', rfl⟩ : ∃ f', fuel = f' + 1 := ⟨fuel - 1, by omega⟩
        have hstop : nv12Loop cfg ops ct w h band a o n (f' + 1)
            ((i : Int) + (nv12Body cfg ops ct w h band a o n i s perm).1).toNat
            (nv12Body cfg ops ct w h band a o n i s perm).1
            (nv12Body cfg ops ct w h band a o n i s perm).2.1
            (nv12Body cfg ops ct w h band a o n i s perm).2.2 =
            some (((i : Int) + (nv12Body cfg ops ct w h band a o n i s perm).1).toNat,
              (nv12Body cfg ops ct w h band a o n i s perm).2.1,
              (nv12Body cfg ops ct w h band a o n i s perm).2.2) := by
          simp only [nv12Loop]
          rw [if_neg (by omega)]
        exact ⟨_, by rw [hstep, hstop], ext1, hext1⟩
    · refine ⟨(i, s, perm), ?_, [], (List.append_nil perm).symm⟩
      simp only [nv12Loop]
      rw [if_neg hg]

/-- Permanent-list monotonicity of the `reserve_blocks` retry loop:
whatever the oracle, the inner loop only appends to the permanent
list. -/
theorem rbInner_perm_ext {σ : Type} (ops : AllocOps σ) (fmt w h band a o n_try : Nat)
    (s : σ) (perm tr : List Nat) :
    ∃ ext, (rbInner ops fmt w h band a o n_try s perm tr).2.2.1 = perm ++ ext := by
  match n_try with
  | 0 => exact ⟨[], (List.append_nil perm).symm⟩
  | 1 => exact ⟨[], (List.append_nil perm).symm⟩
  | k + 2 =>
    have hstep : rbInner ops fmt w h band a o (k + 2) s perm tr =
        (u32 (ops.lay_2d fmt (k + 2) w h band a o s).1,
         (ops.lay_2d fmt (k + 2) w h band a o s).2.2,
         perm ++ (ops.lay_2d fmt (k + 2) w h band a o s).2.1,
         tr ++ [k + 2]) := by
      simp only [rbInner]
      rw [if_pos (Nat.zero_le _)]
    rw [hstep]
    exact ⟨_, rfl⟩

/-- The `reserve_blocks` outer loop, for ANY oracle: because `i` and
`res` are `u32`, the guard conjunct `res >= 0` is vacuously true, so an
exit with a result can only mean the committed index reached the
requested count; and on any exit the permanent reserved list extends
the initial one. -/
theorem rbLoop_stops_only_done {σ : Type} (cfg : Cfg) (ops : AllocOps σ)
    (fmt w h band a o offs e n : Nat) :
    ∀ fuel i res s perm out,
      rbLoop cfg ops fmt w h band a o offs e n fuel i res s perm = some out →
      n ≤ out.1 ∧ ∃ ext, out.2.2 = perm ++ ext := by
  intro fuel
  induction fuel with
  | zero => intro i res s perm out hsome; cases hsome
  | succ fuel ih =>
    intro i res s perm out hsome
    by_cases hg : i < n ∧ 0 ≤ res
    · have hstep : rbLoop cfg ops fmt w h band a o offs e n (fuel + 1) i res s perm =
          rbLoop cfg ops fmt w h band a o offs e n fuel
            ((i + (rbInner ops fmt w h band a o
              (tiler_best2pack cfg.width offs w e band (min (n - i) cfg.width) 0).n
              s perm []).1) % 4294967296)
            (rbInner ops fmt w h band a o
              (tiler_best2pack cfg.width offs w e band (min (n - i) cfg.width) 0).n
              s perm []).1
            (rbInner ops fmt w h band a o
              (tiler_best2pack cfg.width offs w e band (min (n - i) cfg.width) 0).n
              s perm []).2.1
            (rbInner ops fmt w h band a o
              (tiler_best2pack cfg.width offs w e band (min (n - i) cfg.width) 0).n
              s perm []).2.2.1 := by
        simp only [rbLoop]
        rw [if_pos hg]
      rw [hstep] at hsome
      obtain ⟨hn, ext2, hext2⟩ := ih _ _ _ _ _ hsome
      obtain ⟨ext1, hext1⟩ := rbInner_perm_ext ops fmt w h band a o
        (tiler_best2pack cfg.width offs w e band (min (n - i) cfg.width) 0).n s perm []
      exact ⟨hn, ext1 ++ ext2, by rw [hext2, hext1, List.append_assoc]⟩
    · have hstop : rbLoop cfg ops fmt w h band a o offs e n (fuel + 1) i res s perm =
          some (i, s, perm) := by
        simp only [rbLoop]
        rw [if_neg hg]
      rw [hstop] at hsome
      obtain rfl : (i, s, perm) = out := Option.some.inj hsome
      refine ⟨?_, [], (List.append_nil perm).symm⟩
      show n ≤ i
      have hi : ¬ i < n := fun hi => hg ⟨hi, Nat.zero_le res⟩
      omega

/-- Two-state cycle of the `reserve_blocks` outer loop under the
always-commit-one oracle, for `n = 2`, `w = h = 1`, `band = 64`,
`a = 2`, `o = offs = 0`, `e = 1` on the OMAP container: at `i = 0` the
packing count is 2, the single attempt commits one block and `i`
becomes 1; at `i = 1` only one block remains, so the retry loop never
runs, `res` is the wrapped `-1` (`4294967295`), and `i + res` wraps `i`
back to 0.  The loop never returns, whatever the fuel. -/
theorem rbLoop_oneOps_cycle :
    ∀ fuel,
      (∀ res perm, rbLoop cfgOmap oneOps 1 1 1 64 2 0 0 1 2 fuel 0 res () perm = none) ∧
      (∀ res perm, rbLoop cfgOmap oneOps 1 1 1 64 2 0 0 1 2 fuel 1 res () perm = none) := by
  intro fuel
  induction fuel with
  | zero => exact ⟨fun _ _ => rfl, fun _ _ => rfl⟩
  | succ fuel ih =>
    constructor
    · intro res perm
      have hstep : rbLoop cfgOmap oneOps 1 1 1 64 2 0 0 1 2 (fuel + 1) 0 res () perm =
          rbLoop cfgOmap oneOps 1 1 1 64 2 0 0 1 2 fuel 1 1 () (perm ++ [0]) := by
        simp only [rbLoop]
        rw [if_pos ⟨by decide, Nat.zero_le res⟩]
        rfl
      rw [hstep]
      exact ih.2 1 (perm ++ [0])
    · intro res perm
      have hstep : rbLoop cfgOmap oneOps 1 1 1 64 2 0 0 1 2 (fuel + 1) 1 res () perm =
          rbLoop cfgOmap oneOps 1 1 1 64 2 0 0 1 2 fuel 0 4294967295 () perm := by
        have hX : rbInner oneOps 1 1 1 64 2 0
            (tiler_best2pack cfgOmap.width 0 1 1 64 (min (2 - 1) cfgOmap.width) 0).n
            () perm [] = (4294967295, (), perm, []) := by
          have hn : (tiler_best2pack cfgOmap.width 0 1 1 64 (min (2 - 1) cfgOmap.width) 0).n
              = 1 := by decide
          rw [hn]
          rfl
        simp only [rbLoop]
        rw [if_pos ⟨by decide, Nat.zero_le res⟩, hX]
        norm_num
      rw [hstep]
      exact ih.1 4294967295 perm

/-- C7 counterexample: the claim asserts termination for EVERY
allocator behavior, but with the `zeroOps` oracle — whose `lay_2d`
legally reports zero committed blocks — a valid `reserve_nv12` request
(`n = 1`, width 2, height 2, align 4, offs 0, normalized to `w = h =
1`, `band = 64`, `a = 2`, `o = 0`) loops forever: `i += res` with
`res = 0` repeats the same iteration, so no fuel ever completes the
loop. -/
theorem reserve_nv12_livelock_cex :
    ¬ ∃ fuel out, reserve_nv12 cfgOmap zeroOps false 1 2 2 4 0 1 1 64 2 0 fuel () = some out := by
  have hbody : nv12Body cfgOmap zeroOps false 1 1 64 2 0 1 0 () [] = (0, (), []) := by
    decide
  have hloop : ∀ fuel, nv12Loop cfgOmap zeroOps false 1 1 64 2 0 1 fuel 0 0 () [] = none := by
    intro fuel
    induction fuel with
    | zero => rfl
    | succ fuel ih =>
      have hstep : nv12Loop cfgOmap zeroOps false 1 1 64 2 0 1 (fuel + 1) 0 0 () [] =
          nv12Loop cfgOmap zeroOps false 1 1 64 2 0 1 fuel 0 0 () [] := by
        simp only [nv12Loop]
        rw [if_pos (by decide), hbody]
        rfl
      rw [hstep]
      exact ih
  rintro ⟨fuel, out, h⟩
  unfold reserve_nv12 at h
  rw [if_neg (by decide)] at h
  rw [hloop fuel] at h
  cases h

/-- C7 (amended): the two loops behave differently because `res` is a
signed `int` in `reserve_nv12` but `u32` in `reserve_blocks`.
(1) `reserve_nv12`'s loop stops on a failed attempt (negative result)
— though not on a zero-progress one — and, for every allocator whose
commits never report zero blocks, terminates within any fuel exceeding
the outstanding count, the permanent reserved list only growing.
(2) `reserve_blocks`' guard conjunct `res >= 0` is vacuously true
(unsigned), so its loop can stop only once the committed index reaches
the requested count — a failed attempt does not stop it — though on
any exit the permanent list still only grows.
(3) `reserve_blocks` is not total even under such allocators: under
the always-commit-one oracle the two-block request livelocks — the
wrapped failure `(u32)(-1)` walks `i` back down, so `i` oscillates
0, 1, 0, 1, ... and no fuel suffices. -/
theorem reserve_loops_terminate {σ : Type} (cfg : Cfg) (ops : AllocOps σ) (ct : Bool)
    (fmt w h band a o offs e n : Nat)
    (h2d : ∀ fmt' m w' h' band' al' offs' s', (ops.lay_2d fmt' m w' h' band' al' offs' s').1 ≠ 0)
    (hnv : ∀ m ar w' h' p s', (ops.lay_nv12 m ar w' h' p s').1 ≠ 0) :
    (∀ fuel i res s perm, n - i < fuel →
      ∃ out, nv12Loop cfg ops ct w h band a o n fuel i res s perm = some out ∧
        ∃ ext, out.2.2 = perm ++ ext) ∧
    (∀ fuel i res s perm out,
      rbLoop cfg ops fmt w h band a o offs e n fuel i res s perm = some out →
      n ≤ out.1 ∧ ∃ ext, out.2.2 = perm ++ ext) ∧
    (∀ fuel, rbLoop cfgOmap oneOps 1 1 1 64 2 0 0 1 2 fuel 0 0 () [] = none) :=
  ⟨fun fuel i res s perm hf =>
      nv12Loop_total cfg ops ct w h band a o n h2d hnv fuel i res s perm hf,
    fun fuel i res s perm out hout =>
      rbLoop_stops_only_done cfg ops fmt w h band a o offs e n fuel i res s perm out hout,
    fun fuel => (rbLoop_oneOps_cycle fuel).1 0 []⟩

/-- Witness for C7 (amended): with the always-commit-one oracle the
NV12 loop for `n = 1` finishes within fuel 2, extending the permanent
list. -/
theorem reserve_loops_terminate_witness :
    ∃ out, nv12Loop cfgOmap oneOps false 1 1 64 2 0 1 2 0 0 () [] = some out ∧
      ∃ ext, out.2.2 = [] ++ ext := by
  have h := reserve_loops_terminate cfgOmap oneOps false 1 1 1 64 2 0 0 4 1
    (fun _ _ _ _ _ _ _ _ => one_ne_zero) (fun _ _ _ _ _ _ => one_ne_zero)
  exact h.1 2 0 0 () [] (by decide)

/-! ## The retry loop of `reserve_blocks` -/

/-- C8 (amended): `res` in `reserve_blocks` is declared `u32`
(line 394), so the test `if (res >= 0) break` is an unsigned
comparison, always true: the retry loop makes at most ONE `lay_2d`
attempt, the `n_try--` decrement is dead code, and no reduced count is
ever attempted.  Precisely, for EVERY oracle: when the packing count
is at least 2, exactly one attempt is made, at that count with the
given area parameters `fmt, w, h, band, a, o`; the loop returns the
wrapped (`u32`) allocator result, appends the laid areas to the
permanent list (areas committed earlier are preserved) and records the
single attempted count; when the count is 0 or 1 no attempt is made
and the wrapped initial `res = -1` (`4294967295`) is returned with
state, permanent list and trace unchanged. -/
theorem rbInner_retry {σ : Type} (ops : AllocOps σ) (fmt w h band a o : Nat)
    (s : σ) (perm tr : List Nat) (n_try : Nat) :
    (2 ≤ n_try → rbInner ops fmt w h band a o n_try s perm tr =
      (u32 (ops.lay_2d fmt n_try w h band a o s).1,
       (ops.lay_2d fmt n_try w h band a o s).2.2,
       perm ++ (ops.lay_2d fmt n_try w h band a o s).2.1,
       tr ++ [n_try])) ∧
    (n_try ≤ 1 → rbInner ops fmt w h band a o n_try s perm tr =
      (u32 (-1), s, perm, tr)) := by
  constructor
  · intro h2
    obtain ⟨k, rfl⟩ : ∃ k, n_try = k + 2 := ⟨n_try - 2, by omega⟩
    simp only [rbInner]
    rw [if_pos (Nat.zero_le _)]
  · intro h1
    obtain h | h : n_try = 0 ∨ n_try = 1 := by omega
    · subst h; rfl
    · subst h; rfl

/-- Witness for C8 (amended): with the count-echoing stateless oracle,
the retry loop entered at `n_try = 5` makes its single attempt at
count 5 and returns that result, recording `[5]` as the only attempted
count. -/
theorem rbInner_retry_witness :
    rbInner (countOps (fun k => (k : Int))) 1 4 1 64 2 0 5 () [] [] = (5, (), [5], [5]) :=
  (rbInner_retry (countOps (fun k => (k : Int))) 1 4 1 64 2 0 () [] [] 5).1 (by decide)

/-- C8 counterexample: with an allocator accepting exactly a
single-block commit (`acceptOne`), the retry loop entered at
`n_try = 3` attempts ONLY count 3 (the trace is `[3]`): the attempt is
rejected (`acceptOne 3 < 0`), yet neither count 2 nor count 1 is ever
tried and the loop ends with the wrapped failure value `(u32)(-1)`,
although count 1 lies between 1 and `n_try` and would be accepted —
refuting both the claimed per-failure decrement-and-retry and the
claimed success condition. -/
theorem reserve_blocks_single_retry_cex :
    (1 ≤ (1 : Nat) ∧ 1 ≤ (3 : Nat) ∧ 0 ≤ acceptOne 1) ∧
    acceptOne 3 < 0 ∧
    (rbInner (countOps acceptOne) 1 4 1 64 2 0 3 () [] []).2.2.2 = [3] ∧
    (rbInner (countOps acceptOne) 1 4 1 64 2 0 3 () [] []).1 = u32 (-1) := by
  decide

/-! ## Request validation -/

/-- C9 (amended): the local validation of both entry points,
characterized exactly.  `reserve_nv12` passes iff width, height and
count are nonzero, the offset is below the alignment AND EVEN, the
alignment is STRICTLY below the page size, and the count fits half the
container; `reserve_blocks` passes iff width, height and count are
nonzero, the alignment is at most the page size, the offset is below
it, and the format is in the supported range (it has no capacity
check).  A rejected request is a silent no-op (`none`, before any
collaborator call). -/
theorem validation_characterization :
    (∀ cfg n width height align offs,
      nv12_reject cfg n width height align offs = false ↔
        (0 < width ∧ 0 < height ∧ 0 < n ∧ offs < align ∧ offs % 2 = 0 ∧
          align < PAGE_SIZE ∧ n ≤ cfg.width * cfg.height / 2)) ∧
    (∀ n fmt width height align offs,
      blocks_reject n fmt width height align offs = false ↔
        (0 < width ∧ 0 < height ∧ 0 < n ∧ align ≤ PAGE_SIZE ∧ offs < align ∧
          TILFMT_8BIT ≤ fmt ∧ fmt ≤ TILFMT_32BIT)) ∧
    (∀ (σ : Type) (cfg : Cfg) (ops : AllocOps σ) ct n width height align offs
        w h band a o fuel (s : σ),
      nv12_reject cfg n width height align offs = true →
      reserve_nv12 cfg ops ct n width height align offs w h band a o fuel s = none) ∧
    (∀ (σ : Type) (cfg : Cfg) (ops : AllocOps σ) n fmt width height align offs
        bpp w h band a o fuel (s : σ),
      blocks_reject n fmt width height align offs = true →
      reserve_blocks cfg ops n fmt width height align offs bpp w h band a o fuel s = none) := by
  refine ⟨?_, ?_, ?_, ?_⟩
  · intro cfg n width height align offs
    unfold nv12_reject PAGE_SIZE
    rw [decide_eq_false_iff_not]
    omega
  · intro n fmt width height align offs
    unfold blocks_reject PAGE_SIZE TILFMT_8BIT TILFMT_32BIT
    rw [decide_eq_false_iff_not]
    omega
  · intro σ cfg ops ct n width height align offs w h band a o fuel s hrej
    unfold reserve_nv12
    simp [hrej]
  · intro σ cfg ops n fmt width height align offs bpp w h band a o fuel s hrej
    unfold reserve_blocks
    simp [hrej]

/-- Witness for C9 (amended): a zero-count request to `reserve_nv12`
is silently dropped. -/
theorem validation_characterization_witness :
    reserve_nv12 cfgOmap oneOps false 0 2 2 4 0 1 1 64 2 0 3 () = none :=
  validation_characterization.2.2.1 Unit cfgOmap oneOps false 0 2 2 4 0 1 1 64 2 0 3 ()
    (by decide)

/-- C9 counterexample: the request `(n, width, height, align, offs) =
(1, 2, 2, 4096, 0)` satisfies the data-model invariant (positive
dimensions and count, `offs < align`, `align ≤ PAGE_SIZE`) yet
`reserve_nv12` rejects it: the code requires `align < PAGE_SIZE`
(and an even offset), so not every invariant-satisfying request passes
the local validation. -/
theorem nv12_validation_cex :
    (0 < (2 : Nat) ∧ 0 < (2 : Nat) ∧ 0 < (1 : Nat) ∧ (0 : Nat) < 4096 ∧
      (4096 : Nat) ≤ PAGE_SIZE) ∧
    nv12_reject cfgOmap 1 2 2 4096 0 = true := by
  decide

/-- C10: at the valid input `(o, w, a) = (1, 32, 32)` with one block
outstanding, `nv12_together` returns count 0 (all four generators, the
table and `nv12_D` place nothing) while `nv12_separate` returns 1.
With co-packing permitted, `reserve_nv12` then evaluates
`nv12_eff(n_t = 0, …)`, whose `DIV_ROUND_UP(n_need, n)` divides by
zero — undefined behavior in C.  The Lean embedding's total `Nat`
division returns 0, recorded by the last conjunct. -/
theorem nv12_together_zero_divisor :
    (nv12_together cfgOmap 1 32 32 1).n = 0 ∧
    (nv12_separate cfgOmap 1 32 32 1 0).1 = 1 ∧
    0 < (32 : Nat) ∧ 1 < (32 : Nat) ∧ 2 ≤ (32 : Nat) ∧
    DIV_ROUND_UP 1 (nv12_together cfgOmap 1 32 32 1).n = 0 := by
  decide
